import Mathlib

/-!
A shallow embedding of `packer.c`, the source of lua-packer.

`packer.pack(fmt, ...)` and `packer.unpack(fmt, binstr, [startpos])` are embedded as
functions over lists: a format string is a `List Char`, a byte string is a
`List Nat` (one natural below 256 per byte), the Lua arguments are a
`List LuaValue`.  A `luaL_error` (and a failed `luaL_check*`) is an `Except.error`.

Conventions of the embedding:
* Lua numbers are the integer-valued doubles, held as `Int`; the IEEE conversions
  behind `f`/`d` and Lua's string-to-number coercion are fields of `Host`.
* The assignment `var = n` of a number to an integer field keeps a value that lies in
  the range of the field; for a value outside the range C leaves the result undefined
  and the embedding takes it from the field `convert` of `Host`.
* C `int` arithmetic wraps to 32 bits, `size_t` arithmetic to 64 bits.
* The data pointer of `l_unpack` is held as its offset `d - data`; a pointer sum
  `d + size` wraps around `2^64` when it passes the last address, which lies
  `Host.room` bytes above the NUL that ends the data string.
* Memory is unbounded: `malloc`, the `luaL_Buffer` and `lua_pushlstring` never fail.
* `pos` of `l_pack` is written and never read; it is left out.
* Each loop is given twice: as a function of the whole format (`l_pack_loop`,
  `l_unpack_loop`) and one directive at a time (`l_pack_step`, `l_unpack_step`, iterated
  by `l_pack_run`, `l_unpack_run`); `pack_loop_step` and `unpack_loop_step` tie the two.
-/

set_option autoImplicit false

namespace Packer

/-- A Lua value passed to `pack` or pushed by `unpack`: a number or a byte string. -/
inductive LuaValue
  | num (n : Int)
  | str (s : List Nat)
  deriving DecidableEq

/-- The machine and Lua build the library is compiled for. -/
structure Host where
  /-- The flag `hostendian.little`: `true` on a little-endian host. -/
  little : Bool
  /-- The constant `LUAL_BUFFERSIZE` of `lauxlib.h`. -/
  LUAL_BUFFERSIZE : Nat
  /-- The binary32 pattern of `(float)n`. -/
  f32bits : Int → Nat
  /-- The binary64 pattern of `(double)n`. -/
  f64bits : Int → Nat
  /-- The number a binary32 pattern denotes, as pushed by `lua_pushnumber`. -/
  f32num : Nat → Int
  /-- The number a binary64 pattern denotes, as pushed by `lua_pushnumber`. -/
  f64num : Nat → Int
  /-- The string-to-number coercion of `lua_tonumber`. -/
  tonumber : List Nat → Option Int
  /-- The pattern an integer field of `w` bytes, signed or unsigned, holds after
  `var = n` for a number `n` outside the range of the field (undefined in C). -/
  convert : Bool → Nat → Int → Nat
  /-- The number of bytes of address space above the NUL that ends the data string of
  `unpack`: `dend + room` is the last address, and a pointer that is moved beyond it
  wraps around `2^64`. -/
  room : Nat

/-- The ways a call is aborted: the four `luaL_error` messages of `packer.c`,
the `CHECK_DATA` message, and a failed `luaL_checktype`/`luaL_checknumber`. -/
inductive Failure
  /-- Message "invalid format specifier '%c'". -/
  | invalidSpecifier (c : Char)
  /-- Message "'%c%d': size is too wide". -/
  | sizeTooWide (c : Char) (size : Nat)
  /-- Message "'%c%d': int is too wide". -/
  | intTooWide (c : Char) (size : Nat)
  /-- Message "'%c%d': padding is too long". -/
  | paddingTooLong (c : Char) (size : Nat)
  /-- Message "hit end of data while reading '%c' (%d)". -/
  | hitEndOfData (c : Char) (n : Nat)
  /-- Argument `argi` is missing or has the wrong type. -/
  | badArgument (argi : Nat)
  deriving DecidableEq

/-! ## `read_number` -/

/-- The test `isdigit` of `ctype.h` in the C locale. -/
def isdigit (c : Char) : Bool := decide (48 ≤ c.toNat) && decide (c.toNat ≤ 57)

/-- The character `*f` under the format pointer; the byte after the last one is the
terminating NUL of the Lua string. -/
def peek (f : List Char) : Char := f.headD (Char.ofNat 0)

/-- C `int` arithmetic: the result wrapped to 32-bit two's complement. -/
def wrapInt (z : Int) : Int := (z + 2147483648) % 4294967296 - 2147483648

/-- A value converted to `size_t` (64 bits, unsigned). -/
def toSizeT (z : Int) : Nat := (z % 18446744073709551616).toNat

/-- The second loop of `read_number`: `s` walks from the last digit back to `ss`
(the list holds the digits last one first), `size += (*s - '0')*mul; mul *= 10`. -/
def read_number_sum : List Char → Nat → Int → Nat
  | [], size, _ => size
  | c :: cs, size, mul =>
    read_number_sum cs
      ((size + toSizeT (wrapInt (((c.toNat : Int) - 48) * mul))) % 18446744073709551616)
      (wrapInt (mul * 10))

/-- The function `read_number(&str, defaultsize)`: the number read and the advanced
pointer. -/
def read_number (str : List Char) (defaultsize : Nat) : Nat × List Char :=
  if isdigit (peek str) then
    (read_number_sum (str.takeWhile isdigit).reverse 0 1, str.dropWhile isdigit)
  else
    (defaultsize, str)

/-! ## The scratch union and `swap_endian` -/

/-- The loop of `swap_endian`: `k` iterations left, exchanging `bytes[i]` and
`bytes[j]`, then `i++, j--`. -/
def swap_loop : Nat → List Nat → Nat → Nat → List Nat
  | 0, bytes, _, _ => bytes
  | k + 1, bytes, i, j =>
    swap_loop k ((bytes.set i (bytes.getD j 0)).set j (bytes.getD i 0)) (i + 1) (j - 1)

/-- The function `swap_endian(p, sz)` on the `sz` bytes at `p`: `i` runs from `0`
while `i < sz/2`, `j` from `sz - 1`. -/
def swap_endian (bytes : List Nat) : List Nat :=
  swap_loop (bytes.length / 2) bytes 0 (bytes.length - 1)

/-- The `w` low-order bytes of `n`, least significant first. -/
def leBytes : Nat → Nat → List Nat
  | 0, _ => []
  | w + 1, n => n % 256 :: leBytes w (n / 256)

/-- The number a list of bytes holds, least significant byte first. -/
def ofLeBytes : List Nat → Nat
  | [] => 0
  | b :: bs => b + 256 * ofLeBytes bs

/-- The two's complement pattern of `n` in `w` bytes. -/
def toBits (w : Nat) (n : Int) : Nat := (n % (2 ^ (8 * w) : Nat)).toNat

/-- The number `n` lies in the range of the integer type of `w` bytes, signed
(`int8_t` ... `int64_t`) or unsigned (`uint8_t` ... `uint64_t`). -/
def inRange (signed : Bool) (w : Nat) (n : Int) : Bool :=
  if signed then decide (-(2 ^ (8 * w - 1) : Int) ≤ n) && decide (n < 2 ^ (8 * w - 1))
  else decide (0 ≤ n) && decide (n < 2 ^ (8 * w))

/-- The assignment `var = n` of `PACK_NUMBER` for an integer field `var` of `w` bytes:
the pattern the field holds.  A number in the range of the field is stored as it is;
the conversion of a number outside the range is undefined in C and left to the host. -/
def toField (h : Host) (signed : Bool) (w : Nat) (n : Int) : Nat :=
  if inRange signed w n then toBits w n else h.convert signed w n

/-- The bytes of a `w`-byte field of the union `value` holding the pattern `n`, in
memory order on the host. -/
def hostBytes (h : Host) (w n : Nat) : List Nat :=
  if h.little then leBytes w n else (leBytes w n).reverse

/-- The pattern a `w`-byte field of the union reads from the scratch bytes `tab`: its
`w` leading bytes in the host's order. -/
def readField (h : Host) (tab : List Nat) (w : Nat) : Nat :=
  if h.little then ofLeBytes (tab.take w) else ofLeBytes (tab.take w).reverse

/-- A `w`-byte pattern read as a two's complement signed integer. -/
def toSigned (w : Nat) (n : Nat) : Int :=
  if n < 2 ^ (8 * w - 1) then (n : Int) else (n : Int) - (2 ^ (8 * w) : Nat)

/-- Number of binary digits of `n`, for `n` below `2^k`. -/
def bitLength : Nat → Nat → Nat
  | 0, _ => 0
  | k + 1, n => if n = 0 then 0 else bitLength k (n / 2) + 1

/-- The conversion of a 64-bit integer to `lua_Number` (a double): rounded to 53
significant bits, ties to even. -/
def toLuaNumber (z : Int) : Int :=
  let a := z.natAbs
  let e := bitLength 64 a - 53
  let q := a / 2 ^ e
  let r := a % 2 ^ e
  let q1 := if 2 * r > 2 ^ e ∨ (2 * r = 2 ^ e ∧ q % 2 = 1) then q + 1 else q
  if z < 0 then -((q1 * 2 ^ e : Nat) : Int) else ((q1 * 2 ^ e : Nat) : Int)

/-- The call `lua_pushnumber(L, var)` for an integer `var`. -/
def lua_pushnumber (z : Int) : LuaValue := .num (toLuaNumber z)

/-! ## `l_pack` -/

/-- Argument `argi` of the call (`1` is the format string, the values start at `2`). -/
def lua_arg (L : List LuaValue) (argi : Nat) : Option LuaValue :=
  if argi < 2 then none else L.get? (argi - 2)

/-- The pair `luaL_checktype(L, argi, LUA_TSTRING)`, `lua_tolstring(L, argi, &len)`. -/
def luaL_checkstring (L : List LuaValue) (argi : Nat) : Except Failure (List Nat) :=
  match lua_arg L argi with
  | some (.str s) => .ok s
  | _ => .error (.badArgument argi)

/-- The call `luaL_checknumber(L, argi)`: a number, or a string that converts to one. -/
def luaL_checknumber (h : Host) (L : List LuaValue) (argi : Nat) : Except Failure Int :=
  match lua_arg L argi with
  | some (.num n) => .ok n
  | some (.str s) =>
    match h.tonumber s with
    | some n => .ok n
    | none => .error (.badArgument argi)
  | none => .error (.badArgument argi)

/-- The macro `PACK_NUMBER(n, var, size)` for a field `var` of `w` bytes that holds the
pattern `n`: the bytes appended to the buffer. -/
def PACK_NUMBER (h : Host) (little : Bool) (w n size : Nat) : List Nat :=
  let var := hostBytes h w n
  let var := if h.little != little then swap_endian var else var
  if !little then var.drop (w - size) else var.take size

/-- The macro `CASE_PACKNUMBER(c, var, size)`: argument `argi` converted by `conv` into
the `w`-byte field and packed. -/
def CASE_PACKNUMBER (h : Host) (L : List LuaValue) (argi : Nat) (little : Bool)
    (conv : Int → Nat) (w size : Nat) : Except Failure (List Nat) :=
  match luaL_checknumber h L argi with
  | .error e => .error e
  | .ok n => .ok (PACK_NUMBER h little w (conv n) size)

/-- The mask `~(uint32_t)0 >> (4 - size*8)` of case `p`.  The count is computed in
`size_t`, so it wraps for every `size >= 1`; C leaves a shift of a 32-bit operand by
32 or more undefined, and the embedding takes the count modulo 32 as the shift
instructions of x86-64 and AArch64 do. -/
def prefixShift (size : Nat) : Nat := (4 + 18446744073709551616 - size * 8) % 18446744073709551616

/-- See `prefixShift`. -/
def prefixMask (size : Nat) : Nat := 4294967295 >>> (prefixShift size % 32)

/-- The loop `while (f < fend)` of `l_pack`, with the state `f`, `argi`, `little` and
the buffer; the first argument bounds the number of iterations (one per directive, so
the length of the format is enough).  The fields are those of the source: `v.i8`/`v.u8`
for `b`/`B`, `v.i16`/`v.u16` for `h`/`H`, `v.i32`/`v.u32` for `l`/`L` (of which 2 bytes
are emitted), the signed `v.i64` for `I` and the unsigned `v.u64` for `i`.  In case `s`
the argument is taken by `lua_tolstring(L, argi++, ...)` and the branch `len == 0`
increments `argi` once more. -/
def l_pack_loop (h : Host) (L : List LuaValue) :
    Nat → List Char → Nat → Bool → List Nat → Except Failure (List Nat)
  | 0, _, _, _, buf => .ok buf
  | _ + 1, [], _, _, buf => .ok buf
  | fuel + 1, c :: f, argi, little, buf =>
    match c with
    | '<' => l_pack_loop h L fuel f argi true buf
    | '>' => l_pack_loop h L fuel f argi false buf
    | '=' => l_pack_loop h L fuel f argi h.little buf
    | 'c' =>
      match luaL_checkstring L argi with
      | .error e => .error e
      | .ok s => l_pack_loop h L fuel f (argi + 1) little (buf ++ [s.headD 0])
    | 'b' =>
      match CASE_PACKNUMBER h L argi little (toField h true 1) 1 1 with
      | .error e => .error e
      | .ok bs => l_pack_loop h L fuel f (argi + 1) little (buf ++ bs)
    | 'B' =>
      match CASE_PACKNUMBER h L argi little (toField h false 1) 1 1 with
      | .error e => .error e
      | .ok bs => l_pack_loop h L fuel f (argi + 1) little (buf ++ bs)
    | 'h' =>
      match CASE_PACKNUMBER h L argi little (toField h true 2) 2 2 with
      | .error e => .error e
      | .ok bs => l_pack_loop h L fuel f (argi + 1) little (buf ++ bs)
    | 'H' =>
      match CASE_PACKNUMBER h L argi little (toField h false 2) 2 2 with
      | .error e => .error e
      | .ok bs => l_pack_loop h L fuel f (argi + 1) little (buf ++ bs)
    | 'l' =>
      match CASE_PACKNUMBER h L argi little (toField h true 4) 4 2 with
      | .error e => .error e
      | .ok bs => l_pack_loop h L fuel f (argi + 1) little (buf ++ bs)
    | 'L' =>
      match CASE_PACKNUMBER h L argi little (toField h false 4) 4 2 with
      | .error e => .error e
      | .ok bs => l_pack_loop h L fuel f (argi + 1) little (buf ++ bs)
    | 'f' =>
      match CASE_PACKNUMBER h L argi little h.f32bits 4 4 with
      | .error e => .error e
      | .ok bs => l_pack_loop h L fuel f (argi + 1) little (buf ++ bs)
    | 'd' =>
      match CASE_PACKNUMBER h L argi little h.f64bits 8 8 with
      | .error e => .error e
      | .ok bs => l_pack_loop h L fuel f (argi + 1) little (buf ++ bs)
    | 'i' | 'I' =>
      let size := (read_number f 4).1
      let f := (read_number f 4).2
      if size ≤ 0 then
        l_pack_loop h L fuel f (argi + 1) little buf
      else if size > 8 then
        .error (.sizeTooWide c size)
      else
        match CASE_PACKNUMBER h L argi little (toField h (decide (c = 'I')) 8) 8 size with
        | .error e => .error e
        | .ok bs => l_pack_loop h L fuel f (argi + 1) little (buf ++ bs)
    | 'z' =>
      match luaL_checkstring L argi with
      | .error e => .error e
      | .ok s => l_pack_loop h L fuel f (argi + 1) little (buf ++ (s ++ [0]))
    | 'p' =>
      let size := (read_number f 2).1
      let f := (read_number f 2).2
      if size > 4 then
        .error (.intTooWide c size)
      else
        match luaL_checkstring L argi with
        | .error e => .error e
        | .ok s =>
          let len := s.length &&& prefixMask size
          l_pack_loop h L fuel f (argi + 1) little
            (buf ++ (PACK_NUMBER h little 4 (toBits 4 len) size ++ s.take len))
    | 's' =>
      match luaL_checkstring L argi with
      | .error e => .error e
      | .ok s =>
        let inputlen := s.length
        let len := if isdigit (peek f) then (read_number f 0).1 else inputlen
        let f := if isdigit (peek f) then (read_number f 0).2 else f
        if len = 0 then
          l_pack_loop h L fuel f (argi + 1 + 1) little buf
        else
          l_pack_loop h L fuel f (argi + 1) little
            (buf ++ (s.take (min len inputlen) ++ List.replicate (len - min len inputlen) 0))
    | 'x' =>
      let size := (read_number f 1).1
      let f := (read_number f 1).2
      if size > h.LUAL_BUFFERSIZE then
        .error (.paddingTooLong c size)
      else
        let val := if peek f = ',' then (read_number f.tail 0).1 % 256 else 0
        let f := if peek f = ',' then (read_number f.tail 0).2 else f
        l_pack_loop h L fuel f argi little (buf ++ List.replicate size val)
    | ' ' => l_pack_loop h L fuel f argi little buf
    | _ => .error (.invalidSpecifier c)

/-- The function `l_pack`: `packer.pack(fmt, ...)` with the values `L`. -/
def l_pack (h : Host) (fmt : List Char) (L : List LuaValue) : Except Failure (List Nat) :=
  l_pack_loop h L fmt.length fmt 2 h.little []

/-! ## `l_unpack` -/

/-- The `n` bytes at the data pointer `d` (an offset into the buffer).  Offsets outside
the buffer are foreign memory in C; the embedding reads 0 there, as the NUL that ends
the Lua string does at offset `len`. -/
def memAt (data : List Nat) (d : Int) (n : Nat) : List Nat :=
  if d < 0 then (List.replicate (-d).toNat 0 ++ (data ++ List.replicate n 0)).take n
  else (data.drop d.toNat ++ List.replicate n 0).take n

/-- The call `strlen(d)`: the bytes from `d` to the next zero byte (the NUL that ends
the Lua string at the latest). -/
def strlen (data : List Nat) (d : Int) : Nat :=
  if d < 0 then 0 else ((data.drop d.toNat).takeWhile (fun b => b != 0)).length

/-- The bytes of the scratch union after the two `memcpy` branches and the swap of
`UNPACK_NUMBER(var, size, push)`. -/
def UNPACK_SCRATCH (h : Host) (little : Bool) (data : List Nat) (d : Int) (size : Nat) :
    List Nat :=
  let src := memAt data d size
  let tab :=
    if !little then List.replicate (8 - size) 0 ++ src
    else src ++ List.replicate (8 - size) 0
  if little != h.little then swap_endian tab else tab

/-- The pointer sum `d + size`, as an offset from `data`.  The last address lies
`h.room` bytes above `dend`; a sum beyond it wraps around `2^64`. -/
def ptrAdd (h : Host) (data : List Nat) (d : Int) (size : Nat) : Int :=
  if d + (size : Int) > (data.length : Int) + (h.room : Int) then
    d + (size : Int) - 18446744073709551616
  else d + (size : Int)

/-- The macro `CHECK_DATA(size)`: `d + size > dend` raises the error; `n` is
`lua_gettop(L) - top`, one more than the number of values pushed. -/
def CHECK_DATA (h : Host) (data : List Nat) (d : Int) (size : Nat) (c : Char) (n : Nat) :
    Except Failure Unit :=
  if ptrAdd h data d size > (data.length : Int) then .error (.hitEndOfData c n) else .ok ()

/-- The macro `UNPACK_NUMBER(var, size, push)`: the pattern of the `w`-byte field `var`;
its `d += size` is left to the loop. -/
def UNPACK_NUMBER (h : Host) (little : Bool) (data : List Nat) (d : Int) (c : Char)
    (n w size : Nat) : Except Failure Nat :=
  match CHECK_DATA h data d size c n with
  | .error e => .error e
  | .ok _ => .ok (readField h (UNPACK_SCRATCH h little data d size) w)

/-- The loop `while (d < dend && (c = *f++))` of `l_unpack`, with the state `f`, `d`,
`little` and the values pushed; the first argument bounds the number of iterations.
The result is `d - data + 1` and the values.  The fields read are those of the source:
`v.i8`/`v.u8` for `b`/`B`, `v.i16`/`v.u16` for `h`/`H`, `v.i64`/`v.u64` with size 8 for
`l`/`L`, `v.u32`/`v.i32` for `I`/`i` of any width, `v.u32` for the length of `p`. -/
def l_unpack_loop (h : Host) (data : List Nat) :
    Nat → List Char → Int → Bool → List LuaValue → Except Failure (Int × List LuaValue)
  | 0, _, d, _, vals => .ok (d + 1, vals)
  | _ + 1, [], d, _, vals => .ok (d + 1, vals)
  | fuel + 1, c :: f, d, little, vals =>
    if d < (data.length : Int) ∧ c ≠ Char.ofNat 0 then
      match c with
      | '<' => l_unpack_loop h data fuel f d true vals
      | '>' => l_unpack_loop h data fuel f d false vals
      | '=' => l_unpack_loop h data fuel f d h.little vals
      | 'c' =>
        match CHECK_DATA h data d 1 c (vals.length + 1) with
        | .error e => .error e
        | .ok _ => l_unpack_loop h data fuel f (ptrAdd h data d 1) little
            (vals ++ [.str (memAt data d 1)])
      | 'b' =>
        match UNPACK_NUMBER h little data d c (vals.length + 1) 1 1 with
        | .error e => .error e
        | .ok n =>
          l_unpack_loop h data fuel f (ptrAdd h data d 1) little
              (vals ++ [lua_pushnumber (toSigned 1 n)])
      | 'B' =>
        match UNPACK_NUMBER h little data d c (vals.length + 1) 1 1 with
        | .error e => .error e
        | .ok n => l_unpack_loop h data fuel f (ptrAdd h data d 1) little
            (vals ++ [lua_pushnumber n])
      | 'h' =>
        match UNPACK_NUMBER h little data d c (vals.length + 1) 2 2 with
        | .error e => .error e
        | .ok n =>
          l_unpack_loop h data fuel f (ptrAdd h data d 2) little
              (vals ++ [lua_pushnumber (toSigned 2 n)])
      | 'H' =>
        match UNPACK_NUMBER h little data d c (vals.length + 1) 2 2 with
        | .error e => .error e
        | .ok n => l_unpack_loop h data fuel f (ptrAdd h data d 2) little
            (vals ++ [lua_pushnumber n])
      | 'l' =>
        match UNPACK_NUMBER h little data d c (vals.length + 1) 8 8 with
        | .error e => .error e
        | .ok n =>
          l_unpack_loop h data fuel f (ptrAdd h data d 8) little
              (vals ++ [lua_pushnumber (toSigned 8 n)])
      | 'L' =>
        match UNPACK_NUMBER h little data d c (vals.length + 1) 8 8 with
        | .error e => .error e
        | .ok n => l_unpack_loop h data fuel f (ptrAdd h data d 8) little
            (vals ++ [lua_pushnumber n])
      | 'f' =>
        match UNPACK_NUMBER h little data d c (vals.length + 1) 4 4 with
        | .error e => .error e
        | .ok n => l_unpack_loop h data fuel f (ptrAdd h data d 4) little
            (vals ++ [.num (h.f32num n)])
      | 'd' =>
        match UNPACK_NUMBER h little data d c (vals.length + 1) 8 8 with
        | .error e => .error e
        | .ok n => l_unpack_loop h data fuel f (ptrAdd h data d 8) little
            (vals ++ [.num (h.f64num n)])
      | 'i' | 'I' =>
        let size := (read_number f 4).1
        let f := (read_number f 4).2
        if size ≤ 0 then
          l_unpack_loop h data fuel f d little (vals ++ [.num 0])
        else if size > 8 then
          .error (.sizeTooWide c size)
        else
          match UNPACK_NUMBER h little data d c (vals.length + 1) 4 size with
          | .error e => .error e
          | .ok n =>
            if c = 'I' then
              l_unpack_loop h data fuel f (ptrAdd h data d size) little (vals ++ [lua_pushnumber n])
            else
              l_unpack_loop h data fuel f (ptrAdd h data d size) little
                (vals ++ [lua_pushnumber (toSigned 4 n)])
      | 'z' =>
        let size := strlen data d
        match CHECK_DATA h data d (size + 1) c (vals.length + 1) with
        | .error e => .error e
        | .ok _ =>
          l_unpack_loop h data fuel f (ptrAdd h data d (size + 1)) little
              (vals ++ [.str (memAt data d size)])
      | 'p' =>
        let size := (read_number f 2).1
        let f := (read_number f 2).2
        if size > 4 then
          .error (.intTooWide c size)
        else
          match CHECK_DATA h data d size c (vals.length + 1) with
          | .error e => .error e
          | .ok _ =>
            match UNPACK_NUMBER h little data d c (vals.length + 1) 4 size with
            | .error e => .error e
            | .ok n =>
              match CHECK_DATA h data (ptrAdd h data d size) n c (vals.length + 1) with
              | .error e => .error e
              | .ok _ =>
                l_unpack_loop h data fuel f (ptrAdd h data (ptrAdd h data d size) n) little
                  (vals ++ [.str (memAt data (ptrAdd h data d size) n)])
      | 's' =>
        let size :=
          if isdigit (peek f) then (read_number f 0).1
          else (max 0 ((data.length : Int) - d)).toNat
        let f := if isdigit (peek f) then (read_number f 0).2 else f
        match CHECK_DATA h data d size c (vals.length + 1) with
        | .error e => .error e
        | .ok _ => l_unpack_loop h data fuel f (ptrAdd h data d size) little
            (vals ++ [.str (memAt data d size)])
      | 'x' =>
        let size := (read_number f 1).1
        let f := (read_number f 1).2
        match CHECK_DATA h data d size c (vals.length + 1) with
        | .error e => .error e
        | .ok _ => l_unpack_loop h data fuel f (ptrAdd h data d size) little vals
      | ' ' => l_unpack_loop h data fuel f d little vals
      | _ => .error (.invalidSpecifier c)
    else
      .ok (d + 1, vals)

/-- The function `l_unpack`: `packer.unpack(fmt, binstr, startpos)`; a call without
`startpos` is the call with `startpos = 1`.  The result is `nextpos` and the values.
The start offset `startpos - 1` and the difference `d - data + 1` are taken exactly. -/
def l_unpack (h : Host) (fmt : List Char) (data : List Nat) (startpos : Int) :
    Except Failure (Int × List LuaValue) :=
  l_unpack_loop h data fmt.length fmt (startpos - 1) h.little []

/-- The composition `unpack(fmt, pack(fmt, ...))` of the two entry points. -/
def roundTrip (h : Host) (fmt : List Char) (L : List LuaValue) :
    Except Failure (Int × List LuaValue) :=
  match l_pack h fmt L with
  | .error e => .error e
  | .ok bytes => l_unpack h fmt bytes 1

/-! ## Two hosts -/

/-- The instruction `cvttsd2si` of x86-64 with a destination of `bits` bits: the number,
or the "integer indefinite" value `-2^(bits-1)` when the number is out of its range. -/
def cvttsd2si (bits : Nat) (n : Int) : Int :=
  if -(2 ^ (bits - 1) : Int) ≤ n ∧ n < 2 ^ (bits - 1) then n else -(2 ^ (bits - 1) : Int)

/-- The pattern that code compiled by GCC for x86-64 stores for a number outside the
range of the field: the 64-bit fields are converted by the 64-bit `cvttsd2si` (for
`uint64_t` a number from `2^63` on is converted as `n - 2^63` and the top bit is set
again), `uint32_t` keeps the low 32 bits of the 64-bit conversion, and the other fields
keep the low bytes of the 32-bit conversion. -/
def convertX86 (signed : Bool) (w : Nat) (n : Int) : Nat :=
  if w = 8 then
    if signed = true ∨ n < 9223372036854775808 then toBits 8 (cvttsd2si 64 n)
    else toBits 8 (cvttsd2si 64 (n - 9223372036854775808) + 9223372036854775808)
  else if w = 4 ∧ signed = false then toBits 4 (cvttsd2si 64 n)
  else toBits w (cvttsd2si 32 n)

/-- The pattern of the integer `z` in the IEEE 754 binary format with `p` significant
bits and `ebits` exponent bits (binary64: 53 and 11, binary32: 24 and 8): `z` rounded to
`p` significant bits, ties to even, or the pattern of infinity when the exponent is out
of range. -/
def ieeeBits (p ebits : Nat) (z : Int) : Nat :=
  let a := z.natAbs
  let e := bitLength 2048 a - p
  let q := a / 2 ^ e
  let r := a % 2 ^ e
  let q1 := if 2 * r > 2 ^ e ∨ (2 * r = 2 ^ e ∧ q % 2 = 1) then q + 1 else q
  let m := q1 * 2 ^ e
  let ex := bitLength 2048 m - 1
  let scaled := if ex ≤ p - 1 then m * 2 ^ (p - 1 - ex) else m / 2 ^ (ex - (p - 1))
  let frac := scaled - 2 ^ (p - 1)
  let sign := if z < 0 then 2 ^ (p - 1 + ebits) else 0
  let bias := 2 ^ (ebits - 1) - 1
  if a = 0 then 0
  else if ex + bias ≥ 2 ^ ebits - 1 then sign + (2 ^ ebits - 1) * 2 ^ (p - 1)
  else sign + (ex + bias) * 2 ^ (p - 1) + frac

/-- The integer part of the number that a pattern of the IEEE 754 binary format with
`p` significant bits and `ebits` exponent bits denotes; 0 for an infinity or a NaN,
which are no numbers of the embedding. -/
def ieeeNum (p ebits : Nat) (bits : Nat) : Int :=
  let frac := bits % 2 ^ (p - 1)
  let ex := bits / 2 ^ (p - 1) % 2 ^ ebits
  let shift := 2 ^ (ebits - 1) - 1 + (p - 1)
  let a := if ex ≥ shift then (2 ^ (p - 1) + frac) * 2 ^ (ex - shift)
    else (2 ^ (p - 1) + frac) / 2 ^ (shift - ex)
  if ex = 0 ∨ ex = 2 ^ ebits - 1 then 0
  else if bits / 2 ^ (p - 1 + ebits) % 2 = 1 then -(a : Int) else (a : Int)

/-- A little-endian host with `LUAL_BUFFERSIZE = 8192`, IEEE 754 floats and doubles, the
integer conversions of x86-64, and the NUL of the data string at the address `2^47 - 1`
(`2^64 - 2^47` bytes of address space lie above it), on which the examples are
evaluated; its `lua_tonumber` coerces no string. -/
def hostLE : Host :=
  ⟨true, 8192, ieeeBits 24 8, ieeeBits 53 11, ieeeNum 24 8, ieeeNum 53 11, fun _ => none,
    convertX86, 18446603336221196288⟩

/-- A big-endian host, otherwise like `hostLE`. -/
def hostBE : Host :=
  ⟨false, 8192, ieeeBits 24 8, ieeeBits 53 11, ieeeNum 24 8, ieeeNum 53 11, fun _ => none,
    convertX86, 18446603336221196288⟩

/-! ## Sizes as they are written -/

/-- The unsigned integer a run of ASCII digits denotes in base 10. -/
def decimal (ds : List Char) : Nat := ds.foldl (fun acc c => 10 * acc + (c.toNat - 48)) 0

/-- The digits written after a directive: the maximal run of ASCII digits at the head
of the format `f` that follows the directive character. -/
def digitsAt (f : List Char) : List Char := f.takeWhile isdigit

/-- The size `N` a directive is written with: the number its digits denote, or the
default of the directive when it is written without digits. -/
def sizeWritten (ds : List Char) (dflt : Nat) : Nat := if ds = [] then dflt else decimal ds

/-! ## Formats described directive by directive -/

/-- One directive of a format string together with the value it packs: a control
character, `c` with a one-byte string, a fixed-size numeric code, `i`/`I` with its
digits, `z`, `s` with its digits, `x` with its digits. -/
inductive Item
  | ctl (c : Char)
  | chr (b : Nat)
  | num (c : Char) (v : Int)
  | int (c : Char) (ds : List Char) (v : Int)
  | zstr (s : List Nat)
  | fixed (ds : List Char) (s : List Nat)
  | pad (ds : List Char)

/-- The characters of the directive. -/
def Item.fmt : Item → List Char
  | .ctl c => [c]
  | .chr _ => ['c']
  | .num c _ => [c]
  | .int c ds _ => c :: ds
  | .zstr _ => ['z']
  | .fixed ds _ => 's' :: ds
  | .pad ds => 'x' :: ds

/-- The argument the directive consumes in `pack` and the value it yields in `unpack`
(none for a control character and for `x`). -/
def Item.vals : Item → List LuaValue
  | .ctl _ => []
  | .chr b => [.str [b]]
  | .num _ v => [.num v]
  | .int _ _ v => [.num v]
  | .zstr s => [.str s]
  | .fixed _ s => [.str s]
  | .pad _ => []

/-- The value fits the directive exactly; sizes are written with at most 9 digits.  The
numeric codes other than `d` are read back through the leading bytes of the scratch
union, which is where the value lies on a little-endian host.  The value of `i4` is
stored by `pack` through the unsigned field `v.u64`, whose range starts at 0. -/
def Item.fits (h : Host) : Item → Prop
  | .ctl c => c = '<' ∨ c = '>' ∨ c = '=' ∨ c = ' '
  | .chr _ => True
  | .num c v =>
    (c = 'b' ∧ h.little = true ∧ -128 ≤ v ∧ v < 128)
    ∨ (c = 'B' ∧ h.little = true ∧ 0 ≤ v ∧ v < 256)
    ∨ (c = 'h' ∧ h.little = true ∧ -32768 ≤ v ∧ v < 32768)
    ∨ (c = 'H' ∧ h.little = true ∧ 0 ≤ v ∧ v < 65536)
    ∨ (c = 'f' ∧ h.little = true ∧ h.f32bits v < 4294967296 ∧ h.f32num (h.f32bits v) = v)
    ∨ (c = 'd' ∧ h.f64bits v < 18446744073709551616 ∧ h.f64num (h.f64bits v) = v)
  | .int c ds v =>
    ((∀ x ∈ ds, isdigit x = true) ∧ ds.length ≤ 9) ∧ h.little = true
    ∧ ((c = 'I' ∧ 1 ≤ sizeWritten ds 4 ∧ sizeWritten ds 4 ≤ 4
          ∧ 0 ≤ v ∧ v < 2 ^ (8 * sizeWritten ds 4))
        ∨ (c = 'i' ∧ sizeWritten ds 4 = 4 ∧ 0 ≤ v ∧ v < 2147483648))
  | .zstr s => ∀ b ∈ s, b ≠ 0
  | .fixed ds s =>
    ds ≠ [] ∧ ((∀ x ∈ ds, isdigit x = true) ∧ ds.length ≤ 9) ∧ 1 ≤ s.length
    ∧ s.length = decimal ds
  | .pad ds =>
    ((∀ x ∈ ds, isdigit x = true) ∧ ds.length ≤ 9) ∧ sizeWritten ds 1 ≤ h.LUAL_BUFFERSIZE

instance decidableFits (h : Host) (it : Item) : Decidable (it.fits h) := by
  cases it <;> unfold Item.fits <;> exact inferInstance

/-- The next format character is neither a digit nor a comma, so the digits of the
directive before it end there. -/
def startsClean (f : List Char) : Prop := isdigit (peek f) = false ∧ peek f ≠ ','

/-! ## One directive at a time -/

/-- The variables of the loop of `l_pack`: the format pointer, the index of the next
argument, the endian mode and the buffer. -/
structure PackState where
  f : List Char
  argi : Nat
  little : Bool
  buf : List Nat

/-- One iteration of the loop of `l_pack` for the character `c` read by `c = *f++`,
with `f` already past it: the body of the `switch`, as in `l_pack_loop`. -/
def l_pack_step (h : Host) (L : List LuaValue) (c : Char) (f : List Char) (argi : Nat)
    (little : Bool) (buf : List Nat) : Except Failure PackState :=
  match c with
  | '<' => .ok ⟨f, argi, true, buf⟩
  | '>' => .ok ⟨f, argi, false, buf⟩
  | '=' => .ok ⟨f, argi, h.little, buf⟩
  | 'c' =>
    match luaL_checkstring L argi with
    | .error e => .error e
    | .ok s => .ok ⟨f, argi + 1, little, buf ++ [s.headD 0]⟩
  | 'b' =>
    match CASE_PACKNUMBER h L argi little (toField h true 1) 1 1 with
    | .error e => .error e
    | .ok bs => .ok ⟨f, argi + 1, little, buf ++ bs⟩
  | 'B' =>
    match CASE_PACKNUMBER h L argi little (toField h false 1) 1 1 with
    | .error e => .error e
    | .ok bs => .ok ⟨f, argi + 1, little, buf ++ bs⟩
  | 'h' =>
    match CASE_PACKNUMBER h L argi little (toField h true 2) 2 2 with
    | .error e => .error e
    | .ok bs => .ok ⟨f, argi + 1, little, buf ++ bs⟩
  | 'H' =>
    match CASE_PACKNUMBER h L argi little (toField h false 2) 2 2 with
    | .error e => .error e
    | .ok bs => .ok ⟨f, argi + 1, little, buf ++ bs⟩
  | 'l' =>
    match CASE_PACKNUMBER h L argi little (toField h true 4) 4 2 with
    | .error e => .error e
    | .ok bs => .ok ⟨f, argi + 1, little, buf ++ bs⟩
  | 'L' =>
    match CASE_PACKNUMBER h L argi little (toField h false 4) 4 2 with
    | .error e => .error e
    | .ok bs => .ok ⟨f, argi + 1, little, buf ++ bs⟩
  | 'f' =>
    match CASE_PACKNUMBER h L argi little h.f32bits 4 4 with
    | .error e => .error e
    | .ok bs => .ok ⟨f, argi + 1, little, buf ++ bs⟩
  | 'd' =>
    match CASE_PACKNUMBER h L argi little h.f64bits 8 8 with
    | .error e => .error e
    | .ok bs => .ok ⟨f, argi + 1, little, buf ++ bs⟩
  | 'i' | 'I' =>
    let size := (read_number f 4).1
    let f := (read_number f 4).2
    if size ≤ 0 then
      .ok ⟨f, argi + 1, little, buf⟩
    else if size > 8 then
      .error (.sizeTooWide c size)
    else
      match CASE_PACKNUMBER h L argi little (toField h (decide (c = 'I')) 8) 8 size with
      | .error e => .error e
      | .ok bs => .ok ⟨f, argi + 1, little, buf ++ bs⟩
  | 'z' =>
    match luaL_checkstring L argi with
    | .error e => .error e
    | .ok s => .ok ⟨f, argi + 1, little, buf ++ (s ++ [0])⟩
  | 'p' =>
    let size := (read_number f 2).1
    let f := (read_number f 2).2
    if size > 4 then
      .error (.intTooWide c size)
    else
      match luaL_checkstring L argi with
      | .error e => .error e
      | .ok s =>
        let len := s.length &&& prefixMask size
        .ok ⟨f, argi + 1, little,
          buf ++ (PACK_NUMBER h little 4 (toBits 4 len) size ++ s.take len)⟩
  | 's' =>
    match luaL_checkstring L argi with
    | .error e => .error e
    | .ok s =>
      let inputlen := s.length
      let len := if isdigit (peek f) then (read_number f 0).1 else inputlen
      let f := if isdigit (peek f) then (read_number f 0).2 else f
      if len = 0 then
        .ok ⟨f, argi + 1 + 1, little, buf⟩
      else
        .ok ⟨f, argi + 1, little,
          buf ++ (s.take (min len inputlen) ++ List.replicate (len - min len inputlen) 0)⟩
  | 'x' =>
    let size := (read_number f 1).1
    let f := (read_number f 1).2
    if size > h.LUAL_BUFFERSIZE then
      .error (.paddingTooLong c size)
    else
      let val := if peek f = ',' then (read_number f.tail 0).1 % 256 else 0
      let f := if peek f = ',' then (read_number f.tail 0).2 else f
      .ok ⟨f, argi, little, buf ++ List.replicate size val⟩
  | ' ' => .ok ⟨f, argi, little, buf⟩
  | _ => .error (.invalidSpecifier c)

/-- The state of `l_pack` after at most `k` iterations of its loop, from the state
`s`. -/
def l_pack_run (h : Host) (L : List LuaValue) : Nat → PackState → Except Failure PackState
  | 0, s => .ok s
  | k + 1, s =>
    match s.f with
    | [] => .ok s
    | c :: f =>
      match l_pack_step h L c f s.argi s.little s.buf with
      | .error e => .error e
      | .ok s1 => l_pack_run h L k s1

/-- The variables of the loop of `l_unpack`: the format pointer, the data pointer (as
an offset), the endian mode and the values pushed. -/
structure UnpackState where
  f : List Char
  d : Int
  little : Bool
  vals : List LuaValue

/-- One iteration of the loop of `l_unpack` for the character `c`, with `f` already past
it: the body of the `switch`, as in `l_unpack_loop`. -/
def l_unpack_step (h : Host) (data : List Nat) (c : Char) (f : List Char) (d : Int)
    (little : Bool) (vals : List LuaValue) : Except Failure UnpackState :=
  match c with
  | '<' => .ok ⟨f, d, true, vals⟩
  | '>' => .ok ⟨f, d, false, vals⟩
  | '=' => .ok ⟨f, d, h.little, vals⟩
  | 'c' =>
    match CHECK_DATA h data d 1 c (vals.length + 1) with
    | .error e => .error e
    | .ok _ => .ok ⟨f, ptrAdd h data d 1, little, vals ++ [.str (memAt data d 1)]⟩
  | 'b' =>
    match UNPACK_NUMBER h little data d c (vals.length + 1) 1 1 with
    | .error e => .error e
    | .ok n =>
      .ok ⟨f, ptrAdd h data d 1, little, vals ++ [lua_pushnumber (toSigned 1 n)]⟩
  | 'B' =>
    match UNPACK_NUMBER h little data d c (vals.length + 1) 1 1 with
    | .error e => .error e
    | .ok n => .ok ⟨f, ptrAdd h data d 1, little, vals ++ [lua_pushnumber n]⟩
  | 'h' =>
    match UNPACK_NUMBER h little data d c (vals.length + 1) 2 2 with
    | .error e => .error e
    | .ok n =>
      .ok ⟨f, ptrAdd h data d 2, little, vals ++ [lua_pushnumber (toSigned 2 n)]⟩
  | 'H' =>
    match UNPACK_NUMBER h little data d c (vals.length + 1) 2 2 with
    | .error e => .error e
    | .ok n => .ok ⟨f, ptrAdd h data d 2, little, vals ++ [lua_pushnumber n]⟩
  | 'l' =>
    match UNPACK_NUMBER h little data d c (vals.length + 1) 8 8 with
    | .error e => .error e
    | .ok n =>
      .ok ⟨f, ptrAdd h data d 8, little, vals ++ [lua_pushnumber (toSigned 8 n)]⟩
  | 'L' =>
    match UNPACK_NUMBER h little data d c (vals.length + 1) 8 8 with
    | .error e => .error e
    | .ok n => .ok ⟨f, ptrAdd h data d 8, little, vals ++ [lua_pushnumber n]⟩
  | 'f' =>
    match UNPACK_NUMBER h little data d c (vals.length + 1) 4 4 with
    | .error e => .error e
    | .ok n => .ok ⟨f, ptrAdd h data d 4, little, vals ++ [.num (h.f32num n)]⟩
  | 'd' =>
    match UNPACK_NUMBER h little data d c (vals.length + 1) 8 8 with
    | .error e => .error e
    | .ok n => .ok ⟨f, ptrAdd h data d 8, little, vals ++ [.num (h.f64num n)]⟩
  | 'i' | 'I' =>
    let size := (read_number f 4).1
    let f := (read_number f 4).2
    if size ≤ 0 then
      .ok ⟨f, d, little, vals ++ [.num 0]⟩
    else if size > 8 then
      .error (.sizeTooWide c size)
    else
      match UNPACK_NUMBER h little data d c (vals.length + 1) 4 size with
      | .error e => .error e
      | .ok n =>
        if c = 'I' then
          .ok ⟨f, ptrAdd h data d size, little, vals ++ [lua_pushnumber n]⟩
        else
          .ok ⟨f, ptrAdd h data d size, little, vals ++ [lua_pushnumber (toSigned 4 n)]⟩
  | 'z' =>
    let size := strlen data d
    match CHECK_DATA h data d (size + 1) c (vals.length + 1) with
    | .error e => .error e
    | .ok _ =>
      .ok ⟨f, ptrAdd h data d (size + 1), little, vals ++ [.str (memAt data d size)]⟩
  | 'p' =>
    let size := (read_number f 2).1
    let f := (read_number f 2).2
    if size > 4 then
      .error (.intTooWide c size)
    else
      match CHECK_DATA h data d size c (vals.length + 1) with
      | .error e => .error e
      | .ok _ =>
        match UNPACK_NUMBER h little data d c (vals.length + 1) 4 size with
        | .error e => .error e
        | .ok n =>
          match CHECK_DATA h data (ptrAdd h data d size) n c (vals.length + 1) with
          | .error e => .error e
          | .ok _ =>
            .ok ⟨f, ptrAdd h data (ptrAdd h data d size) n, little,
                vals ++ [.str (memAt data (ptrAdd h data d size) n)]⟩
  | 's' =>
    let size :=
      if isdigit (peek f) then (read_number f 0).1
      else (max 0 ((data.length : Int) - d)).toNat
    let f := if isdigit (peek f) then (read_number f 0).2 else f
    match CHECK_DATA h data d size c (vals.length + 1) with
    | .error e => .error e
    | .ok _ => .ok ⟨f, ptrAdd h data d size, little, vals ++ [.str (memAt data d size)]⟩
  | 'x' =>
    let size := (read_number f 1).1
    let f := (read_number f 1).2
    match CHECK_DATA h data d size c (vals.length + 1) with
    | .error e => .error e
    | .ok _ => .ok ⟨f, ptrAdd h data d size, little, vals⟩
  | ' ' => .ok ⟨f, d, little, vals⟩
  | _ => .error (.invalidSpecifier c)

/-- The state of `l_unpack` after at most `k` iterations of its loop, from the state
`s`; the loop stops when `d` has reached `dend` or the format its NUL. -/
def l_unpack_run (h : Host) (data : List Nat) :
    Nat → UnpackState → Except Failure UnpackState
  | 0, s => .ok s
  | k + 1, s =>
    match s.f with
    | [] => .ok s
    | c :: f =>
      if s.d < (data.length : Int) ∧ c ≠ Char.ofNat 0 then
        match l_unpack_step h data c f s.d s.little s.vals with
        | .error e => .error e
        | .ok s1 => l_unpack_run h data k s1
      else
        .ok s

/-- The directive `c` (with `f` the format after it) needs more bytes than remain from
the data pointer `d`: the fixed sizes of `c`, `b`, `B`, `h`, `H`, `f`, `d`; the size `N`
written (with at most 9 digits) for `i`/`I`, `s` and `x`; for `p` the `N` prefix bytes or,
after them, the payload length decoded from them; and for `z` a zero byte among the
remaining bytes. -/
def needsMore (h : Host) (data : List Nat) (c : Char) (f : List Char) (d : Int)
    (little : Bool) : Prop :=
  ((c = 'c' ∨ c = 'b' ∨ c = 'B') ∧ d + 1 > (data.length : Int))
  ∨ ((c = 'h' ∨ c = 'H') ∧ d + 2 > (data.length : Int))
  ∨ (c = 'f' ∧ d + 4 > (data.length : Int))
  ∨ (c = 'd' ∧ d + 8 > (data.length : Int))
  ∨ ((digitsAt f).length ≤ 9
    ∧ (((c = 'i' ∨ c = 'I') ∧ d + (sizeWritten (digitsAt f) 4 : Int) > (data.length : Int))
      ∨ (c = 's' ∧ digitsAt f ≠ [] ∧ d + (decimal (digitsAt f) : Int) > (data.length : Int))
      ∨ (c = 'x' ∧ d + (sizeWritten (digitsAt f) 1 : Int) > (data.length : Int))
      ∨ (c = 'p' ∧ (d + (sizeWritten (digitsAt f) 2 : Int) > (data.length : Int)
          ∨ d + (sizeWritten (digitsAt f) 2 : Int)
              + (readField h (UNPACK_SCRATCH h little data d (sizeWritten (digitsAt f) 2)) 4
                  : Int)
              > (data.length : Int)))))
  ∨ (c = 'z' ∧ 0 ≤ d ∧ ∀ b ∈ data.drop d.toNat, b ≠ 0)

instance decidableNeedsMore (h : Host) (data : List Nat) (c : Char) (f : List Char) (d : Int)
    (little : Bool) : Decidable (needsMore h data c f d little) := by
  unfold needsMore
  exact inferInstance

/-- The failure of a call whose arguments are preceded by `n` more values: a bad
argument is reported `n` positions later. -/
def shiftArg (n : Nat) : Failure → Failure
  | .badArgument argi => .badArgument (argi + n)
  | e => e

/-- The directive `c` (with `f` the format after it) is malformed for `pack`: an
unknown character, or a size written with at most 9 digits that is above 8 for `i`/`I`,
above 4 for `p`, above `LUAL_BUFFERSIZE` for `x`. -/
def malformed (h : Host) (c : Char) (f : List Char) : Prop :=
  c ∉ ['<', '>', '=', ' ', 'c', 'b', 'B', 'h', 'H', 'l', 'L', 'i', 'I', 'f', 'd', 'z', 'p',
      's', 'x']
  ∨ ((digitsAt f).length ≤ 9
    ∧ (((c = 'i' ∨ c = 'I') ∧ sizeWritten (digitsAt f) 4 > 8)
      ∨ (c = 'p' ∧ sizeWritten (digitsAt f) 2 > 4)
      ∨ (c = 'x' ∧ sizeWritten (digitsAt f) 1 > h.LUAL_BUFFERSIZE)))

instance decidableMalformed (h : Host) (c : Char) (f : List Char) :
    Decidable (malformed h c f) := by
  unfold malformed
  exact inferInstance

/-! ## Byte encodings and the narrowing rule -/

theorem leBytes_length (w n : Nat) : (leBytes w n).length = w := by
  induction w generalizing n with
  | zero => rfl
  | succ w ih => simp [leBytes, ih]

theorem swap_endian_eq_reverse (l : List Nat) (hl : l.length ≤ 8) : swap_endian l = l.reverse := by
  match l, hl with
  | [], _ => rfl
  | [_], _ => simp [swap_endian, swap_loop]
  | [_, _], _ => simp [swap_endian, swap_loop]
  | [_, _, _], _ => simp [swap_endian, swap_loop]
  | [_, _, _, _], _ => simp [swap_endian, swap_loop]
  | [_, _, _, _, _], _ => simp [swap_endian, swap_loop]
  | [_, _, _, _, _, _], _ => simp [swap_endian, swap_loop]
  | [_, _, _, _, _, _, _], _ => simp [swap_endian, swap_loop]
  | [_, _, _, _, _, _, _, _], _ => simp [swap_endian, swap_loop]
  | _ :: _ :: _ :: _ :: _ :: _ :: _ :: _ :: _ :: _, hl => exact absurd hl (by simp)

theorem leBytes_take (w k n : Nat) (hk : k ≤ w) : (leBytes w n).take k = leBytes k n := by
  induction w generalizing k n with
  | zero => 
    have : k = 0 := by omega
    subst this; rfl
  | succ w ih =>
    cases k with
    | zero => rfl
    | succ k => simp [leBytes, ih k (n / 256) (by omega)]

theorem leBytes_congr (k n m : Nat) (hnm : n % 256 ^ k = m % 256 ^ k) :
    leBytes k n = leBytes k m := by
  induction k generalizing n m with
  | zero => rfl
  | succ k ih =>
    have h1 : n % 256 = m % 256 := by
      have := congrArg (fun x => x % 256) hnm
      simpa [Nat.mod_mod_of_dvd, pow_succ] using this
    have h2 : (n / 256) % 256 ^ k = (m / 256) % 256 ^ k := by
      have := congrArg (fun x => x / 256) hnm
      simpa [pow_succ, Nat.mul_comm, Nat.mod_mul_right_div_self] using this
    simp [leBytes, h1, ih _ _ h2]

theorem PACK_NUMBER_eq (h : Host) (little : Bool) (w n size : Nat) (hw : w ≤ 8)
    (hs : size ≤ w) :
    PACK_NUMBER h little w n size
      = if little then leBytes size n else (leBytes size n).reverse := by
  have hsw : swap_endian (leBytes w n) = (leBytes w n).reverse :=
    swap_endian_eq_reverse _ (by rw [leBytes_length]; exact hw)
  have hsw2 : swap_endian (leBytes w n).reverse = leBytes w n := by
    rw [swap_endian_eq_reverse _ (by rw [List.length_reverse, leBytes_length]; exact hw)]
    simp
  have hd : (leBytes w n).reverse.drop (w - size) = (leBytes size n).reverse := by
    rw [List.drop_reverse, leBytes_length, Nat.sub_sub_self hs, leBytes_take _ _ _ hs]
  cases hl : h.little <;> cases little <;>
    simp [PACK_NUMBER, hostBytes, hl, hsw, hsw2, hd, leBytes_take _ _ _ hs]

theorem leBytes_eq_map (w n : Nat) :
    leBytes w n = (List.range w).map fun k => n / 256 ^ k % 256 := by
  induction w generalizing n with
  | zero => rfl
  | succ w ih =>
    rw [List.range_succ_eq_map, leBytes, ih]
    simp [Function.comp_def, pow_succ, Nat.div_div_eq_div_mul, Nat.mul_comm]

theorem toBits_natCast (w v : Nat) : toBits w (v : Int) = v % 2 ^ (8 * w) := by
  unfold toBits
  rw [← Int.natCast_mod, Int.toNat_ofNat]

theorem toField_eq (h : Host) (signed : Bool) (w : Nat) (n : Int)
    (hr : inRange signed w n = true) : toField h signed w n = toBits w n := by
  simp [toField, hr]

theorem pack_I_digit (h : Host) (m : Char) (N : Nat) (v : Int) (hN1 : 1 ≤ N) (hN8 : N ≤ 8)
    (hm : m = '<' ∨ m = '>') :
    l_pack h [m, 'I', Char.ofNat (48 + N)] [.num v]
      = .ok (if m = '<' then leBytes N (toField h true 8 v)
          else (leBytes N (toField h true 8 v)).reverse) := by
  rcases hm with rfl | rfl <;> interval_cases N <;>
    simp [l_pack, l_pack_loop, read_number, read_number_sum, isdigit, peek, CASE_PACKNUMBER,
      luaL_checknumber, lua_arg, PACK_NUMBER_eq, toSizeT, wrapInt]

theorem leBytes_toBits (N v : Nat) (hN8 : N ≤ 8) :
    leBytes N (toBits 8 (v : Int)) = leBytes N v := by
  rw [toBits_natCast]
  apply leBytes_congr
  have : (256 : Nat) ^ N ∣ 2 ^ (8 * 8) := by
    have : (256 : Nat) = 2 ^ 8 := by norm_num
    rw [this, ← pow_mul]
    exact pow_dvd_pow 2 (by omega)
  exact Nat.mod_mod_of_dvd _ this

theorem takeWhile_nonzero (s t : List Nat) (hs : ∀ b ∈ s, b ≠ 0) :
    (s ++ 0 :: t).takeWhile (fun b => b != 0) = s := by
  rw [List.takeWhile_append_of_pos (by simpa using hs)]
  simp

/-! ## `read_number` on digit runs -/

theorem takeWhile_digits (ds rest : List Char) (hds : ∀ x ∈ ds, isdigit x = true)
    (hrest : isdigit (peek rest) = false) : (ds ++ rest).takeWhile isdigit = ds := by
  rw [List.takeWhile_append_of_pos hds]
  cases rest with
  | nil => simp
  | cons c cs =>
    have : isdigit c = false := by simpa [peek] using hrest
    simp [List.takeWhile, this]

theorem dropWhile_digits (ds rest : List Char) (hds : ∀ x ∈ ds, isdigit x = true)
    (hrest : isdigit (peek rest) = false) : (ds ++ rest).dropWhile isdigit = rest := by
  induction ds with
  | nil =>
    cases rest with
    | nil => simp
    | cons c cs =>
      have : isdigit c = false := by simpa [peek] using hrest
      simp [List.dropWhile, this]
  | cons d ds ih =>
    have hd : isdigit d = true := hds d (by simp)
    simp only [List.cons_append, List.dropWhile, hd]
    exact ih (fun x hx => hds x (by simp [hx]))

theorem read_number_append (ds rest : List Char) (dflt : Nat)
    (hds : ∀ x ∈ ds, isdigit x = true) (hrest : isdigit (peek rest) = false) :
    read_number (ds ++ rest) dflt = ((read_number ds dflt).1, rest) := by
  cases ds with
  | nil =>
    have h0 : isdigit (peek []) = false := by decide
    simp [read_number, hrest, h0]
  | cons d ds =>
    have hd : isdigit d = true := hds d (by simp)
    have h1 : isdigit (peek (d :: ds ++ rest)) = true := by simpa [peek] using hd
    have h2 : isdigit (peek (d :: ds)) = true := by simpa [peek] using hd
    have h3 := takeWhile_digits (d :: ds) rest hds hrest
    have h4 := dropWhile_digits (d :: ds) rest hds hrest
    have h5 := takeWhile_digits (d :: ds) [] hds (by decide)
    rw [List.append_nil] at h5
    simp only [read_number, h1, h2, if_true, h3, h4, h5]

theorem wrapInt_id (z : Int) (h0 : 0 ≤ z) (h1 : z < 2147483648) : wrapInt z = z := by
  unfold wrapInt
  omega

theorem toSizeT_natCast (n : Nat) (hn : n < 18446744073709551616) : toSizeT (n : Int) = n := by
  unfold toSizeT
  omega

theorem decimal_append (ds : List Char) (c : Char) :
    decimal (ds ++ [c]) = 10 * decimal ds + (c.toNat - 48) := by
  simp [decimal, List.foldl_append]

theorem isdigit_range (c : Char) (hc : isdigit c = true) : 48 ≤ c.toNat ∧ c.toNat ≤ 57 := by
  simpa [isdigit] using hc

theorem read_number_sum_decimal (rs : List Char) :
    ∀ (i size : Nat), (∀ x ∈ rs, isdigit x = true) → rs.length + i ≤ 9 → size < 10 ^ i →
      read_number_sum rs size ((10 ^ i : Nat) : Int) = size + 10 ^ i * decimal rs.reverse := by
  induction rs with
  | nil => intro i size _ _ _; simp [read_number_sum, decimal]
  | cons c cs ih =>
    intro i size hds hlen hsize
    obtain ⟨hc1, hc2⟩ := isdigit_range c (hds c (by simp))
    have hi : i ≤ 8 := by simp at hlen; omega
    have hP : 10 ^ i ≤ 10 ^ 8 := Nat.pow_le_pow_right (by norm_num) hi
    have hP1 : 10 ^ (i + 1) ≤ 10 ^ 9 := Nat.pow_le_pow_right (by norm_num) (by omega)
    have hP0 : 0 < 10 ^ i := Nat.pow_pos (by norm_num)
    have hQ : (c.toNat - 48) * 10 ^ i ≤ 9 * 10 ^ i := Nat.mul_le_mul_right _ (by omega)
    have e1 : ((c.toNat : Int) - 48) * ((10 ^ i : Nat) : Int)
        = (((c.toNat - 48) * 10 ^ i : Nat) : Int) := by
      rw [Nat.cast_mul, Nat.cast_sub hc1]
      rfl
    have e2 : ((10 ^ i : Nat) : Int) * 10 = ((10 ^ (i + 1) : Nat) : Int) := by
      rw [pow_succ, Nat.cast_mul]
      rfl
    norm_num at hP hP1
    rw [read_number_sum, e1, e2, wrapInt_id _ (by omega) (by omega),
      wrapInt_id _ (by omega) (by omega), toSizeT_natCast _ (by omega),
      Nat.mod_eq_of_lt (by omega)]
    rw [ih (i + 1) _ (fun x hx => hds x (by simp [hx])) (by simp at hlen ⊢; omega)
      (by rw [pow_succ]; omega)]
    rw [List.reverse_cons, decimal_append, pow_succ]
    ring

theorem read_number_decimal (ds rest : List Char) (dflt : Nat) (hne : ds ≠ [])
    (hds : ∀ x ∈ ds, isdigit x = true) (hrest : isdigit (peek rest) = false)
    (hlen : ds.length ≤ 9) :
    read_number (ds ++ rest) dflt = (decimal ds, rest) := by
  rw [read_number_append ds rest dflt hds hrest]
  have hpk : isdigit (peek ds) = true := by
    cases ds with
    | nil => exact absurd rfl hne
    | cons d ds => simpa [peek] using hds d (by simp)
  have htw : ds.takeWhile isdigit = ds := List.takeWhile_eq_self_iff.mpr hds
  have := read_number_sum_decimal ds.reverse 0 0 (by simpa using hds) (by simpa using hlen)
    (by norm_num)
  simp only [read_number, hpk, if_true, htw]
  simp only [pow_zero, Nat.cast_one, List.reverse_reverse, Nat.zero_add, Nat.one_mul] at this
  rw [this]

theorem read_number_no_digit (str : List Char) (dflt : Nat) (hp : isdigit (peek str) = false) :
    read_number str dflt = (dflt, str) := by
  simp [read_number, hp]

theorem read_number_written (ds : List Char) (dflt : Nat) (hds : ∀ x ∈ ds, isdigit x = true)
    (hlen : ds.length ≤ 9) : (read_number ds dflt).1 = sizeWritten ds dflt := by
  by_cases hne : ds = []
  · subst hne
    rfl
  · have := read_number_decimal ds [] dflt hne hds (by decide) hlen
    rw [List.append_nil] at this
    simp [this, sizeWritten, hne]

theorem digitsAt_digits (f : List Char) : ∀ x ∈ digitsAt f, isdigit x = true := by
  intro x hx
  exact (List.mem_takeWhile_imp hx)

theorem digitsAt_rest (f : List Char) : isdigit (peek (f.dropWhile isdigit)) = false := by
  induction f with
  | nil => decide
  | cons c cs ih =>
    cases hc : isdigit c
    · simp [List.dropWhile, hc, peek]
    · simpa [List.dropWhile, hc] using ih

theorem read_number_digitsAt (f : List Char) (dflt : Nat) (hlen : (digitsAt f).length ≤ 9) :
    read_number f dflt = (sizeWritten (digitsAt f) dflt, f.dropWhile isdigit) := by
  have hf : f = digitsAt f ++ f.dropWhile isdigit := (List.takeWhile_append_dropWhile _ _).symm
  have h1 := read_number_append (digitsAt f) (f.dropWhile isdigit) dflt (digitsAt_digits f)
    (digitsAt_rest f)
  rw [← hf] at h1
  rw [h1, read_number_written _ _ (digitsAt_digits f) hlen]

theorem decimal_exists (k N : Nat) (hN : N < 10 ^ k) :
    ∃ ds : List Char, (∀ x ∈ ds, isdigit x = true) ∧ ds.length = k ∧ decimal ds = N := by
  induction k generalizing N with
  | zero =>
    have : N = 0 := by simpa using hN
    subst this
    exact ⟨[], by simp, rfl, rfl⟩
  | succ k ih =>
    obtain ⟨ds, hds, hlen, hdec⟩ := ih (N / 10) (by rw [pow_succ] at hN; omega)
    have hlt : N % 10 < 10 := Nat.mod_lt _ (by norm_num)
    have hc : (Char.ofNat (48 + N % 10)).toNat = 48 + N % 10 := by
      interval_cases (N % 10) <;> rfl
    refine ⟨ds ++ [Char.ofNat (48 + N % 10)], ?_, by simp [hlen], ?_⟩
    · intro x hx
      rcases List.mem_append.mp hx with h1 | h1
      · exact hds x h1
      · have : x = Char.ofNat (48 + N % 10) := by simpa using h1
        subst this
        simp only [isdigit, hc, Bool.and_eq_true, decide_eq_true_eq]
        omega
    · rw [decimal_append, hdec, hc]
      omega

/-! ## Directive by directive: `l_pack` -/

theorem memAt_mid (pre s post : List Nat) (n : Nat) (hn : s.length = n) :
    memAt (pre ++ (s ++ post)) (pre.length : Int) n = s := by
  subst hn
  simp [memAt]

theorem ptrAdd_eq (h : Host) (data : List Nat) (d : Int) (size : Nat)
    (hle : d + (size : Int) ≤ (data.length : Int) + (h.room : Int)) :
    ptrAdd h data d size = d + (size : Int) := by
  unfold ptrAdd
  rw [if_neg (by omega)]

theorem pack_loop_step (h : Host) (L : List LuaValue) (fuel : Nat) (c : Char) (f : List Char)
    (argi : Nat) (little : Bool) (buf : List Nat) :
    l_pack_loop h L (fuel + 1) (c :: f) argi little buf
      = match l_pack_step h L c f argi little buf with
        | .error e => .error e
        | .ok s => l_pack_loop h L fuel s.f s.argi s.little s.buf := by
  by_cases h0 : c = '<'
  · subst h0
    simp only [l_pack_loop, l_pack_step]
    try repeat (first | rfl | split)
  by_cases h1 : c = '>'
  · subst h1
    simp only [l_pack_loop, l_pack_step]
    try repeat (first | rfl | split)
  by_cases h2 : c = '='
  · subst h2
    simp only [l_pack_loop, l_pack_step]
    try repeat (first | rfl | split)
  by_cases h3 : c = 'c'
  · subst h3
    simp only [l_pack_loop, l_pack_step]
    try repeat (first | rfl | split)
  by_cases h4 : c = 'b'
  · subst h4
    simp only [l_pack_loop, l_pack_step]
    try repeat (first | rfl | split)
  by_cases h5 : c = 'B'
  · subst h5
    simp only [l_pack_loop, l_pack_step]
    try repeat (first | rfl | split)
  by_cases h6 : c = 'h'
  · subst h6
    simp only [l_pack_loop, l_pack_step]
    try repeat (first | rfl | split)
  by_cases h7 : c = 'H'
  · subst h7
    simp only [l_pack_loop, l_pack_step]
    try repeat (first | rfl | split)
  by_cases h8 : c = 'l'
  · subst h8
    simp only [l_pack_loop, l_pack_step]
    try repeat (first | rfl | split)
  by_cases h9 : c = 'L'
  · subst h9
    simp only [l_pack_loop, l_pack_step]
    try repeat (first | rfl | split)
  by_cases h10 : c = 'f'
  · subst h10
    simp only [l_pack_loop, l_pack_step]
    try repeat (first | rfl | split)
  by_cases h11 : c = 'd'
  · subst h11
    simp only [l_pack_loop, l_pack_step]
    try repeat (first | rfl | split)
  by_cases h12 : c = 'i'
  · subst h12
    simp only [l_pack_loop, l_pack_step]
    try repeat (first | rfl | split)
  by_cases h13 : c = 'I'
  · subst h13
    simp only [l_pack_loop, l_pack_step]
    try repeat (first | rfl | split)
  by_cases h14 : c = 'z'
  · subst h14
    simp only [l_pack_loop, l_pack_step]
    try repeat (first | rfl | split)
  by_cases h15 : c = 'p'
  · subst h15
    simp only [l_pack_loop, l_pack_step]
    try repeat (first | rfl | split)
  by_cases h16 : c = 's'
  · subst h16
    simp only [l_pack_loop, l_pack_step]
    try repeat (first | rfl | split)
  by_cases h17 : c = 'x'
  · subst h17
    simp only [l_pack_loop, l_pack_step]
    try repeat (first | rfl | split)
  by_cases h18 : c = ' '
  · subst h18
    simp only [l_pack_loop, l_pack_step]
    try repeat (first | rfl | split)
  simp only [l_pack_loop, l_pack_step]

theorem unpack_loop_step (h : Host) (data : List Nat) (fuel : Nat) (c : Char) (f : List Char)
    (d : Int) (little : Bool) (vals : List LuaValue)
    (hd : d < (data.length : Int) ∧ c ≠ Char.ofNat 0) :
    l_unpack_loop h data (fuel + 1) (c :: f) d little vals
      = match l_unpack_step h data c f d little vals with
        | .error e => .error e
        | .ok s => l_unpack_loop h data fuel s.f s.d s.little s.vals := by
  by_cases h0 : c = '<'
  · subst h0
    simp only [l_unpack_loop, l_unpack_step, if_pos hd]
    try repeat (first | rfl | split)
  by_cases h1 : c = '>'
  · subst h1
    simp only [l_unpack_loop, l_unpack_step, if_pos hd]
    try repeat (first | rfl | split)
  by_cases h2 : c = '='
  · subst h2
    simp only [l_unpack_loop, l_unpack_step, if_pos hd]
    try repeat (first | rfl | split)
  by_cases h3 : c = 'c'
  · subst h3
    simp only [l_unpack_loop, l_unpack_step, if_pos hd]
    try repeat (first | rfl | split)
  by_cases h4 : c = 'b'
  · subst h4
    simp only [l_unpack_loop, l_unpack_step, if_pos hd]
    try repeat (first | rfl | split)
  by_cases h5 : c = 'B'
  · subst h5
    simp only [l_unpack_loop, l_unpack_step, if_pos hd]
    try repeat (first | rfl | split)
  by_cases h6 : c = 'h'
  · subst h6
    simp only [l_unpack_loop, l_unpack_step, if_pos hd]
    try repeat (first | rfl | split)
  by_cases h7 : c = 'H'
  · subst h7
    simp only [l_unpack_loop, l_unpack_step, if_pos hd]
    try repeat (first | rfl | split)
  by_cases h8 : c = 'l'
  · subst h8
    simp only [l_unpack_loop, l_unpack_step, if_pos hd]
    try repeat (first | rfl | split)
  by_cases h9 : c = 'L'
  · subst h9
    simp only [l_unpack_loop, l_unpack_step, if_pos hd]
    try repeat (first | rfl | split)
  by_cases h10 : c = 'f'
  · subst h10
    simp only [l_unpack_loop, l_unpack_step, if_pos hd]
    try repeat (first | rfl | split)
  by_cases h11 : c = 'd'
  · subst h11
    simp only [l_unpack_loop, l_unpack_step, if_pos hd]
    try repeat (first | rfl | split)
  by_cases h12 : c = 'i'
  · subst h12
    simp only [l_unpack_loop, l_unpack_step, if_pos hd]
    try repeat (first | rfl | split)
  by_cases h13 : c = 'I'
  · subst h13
    simp only [l_unpack_loop, l_unpack_step, if_pos hd]
    try repeat (first | rfl | split)
  by_cases h14 : c = 'z'
  · subst h14
    simp only [l_unpack_loop, l_unpack_step, if_pos hd]
    try repeat (first | rfl | split)
  by_cases h15 : c = 'p'
  · subst h15
    simp only [l_unpack_loop, l_unpack_step, if_pos hd]
    try repeat (first | rfl | split)
  by_cases h16 : c = 's'
  · subst h16
    simp only [l_unpack_loop, l_unpack_step, if_pos hd]
    try repeat (first | rfl | split)
  by_cases h17 : c = 'x'
  · subst h17
    simp only [l_unpack_loop, l_unpack_step, if_pos hd]
    try repeat (first | rfl | split)
  by_cases h18 : c = ' '
  · subst h18
    simp only [l_unpack_loop, l_unpack_step, if_pos hd]
    try repeat (first | rfl | split)
  simp only [l_unpack_loop, l_unpack_step, if_pos hd]

theorem unpack_loop_stop (h : Host) (data : List Nat) (fuel : Nat) (f : List Char)
    (d : Int) (little : Bool) (vals : List LuaValue)
    (hd : ¬ (d < (data.length : Int) ∧ peek f ≠ Char.ofNat 0)) :
    l_unpack_loop h data fuel f d little vals = .ok (d + 1, vals) := by
  cases fuel with
  | zero => rfl
  | succ k =>
    cases f with
    | nil => rfl
    | cons c f =>
      unfold l_unpack_loop
      rw [if_neg]
      simpa [peek] using hd

/-! ## Facts about one directive of `l_unpack` -/

theorem CHECK_DATA_eq_ok (h : Host) (data : List Nat) (d : Int) (size : Nat) (c : Char)
    (n : Nat) (u : Unit) :
    CHECK_DATA h data d size c n = .ok u ↔ ptrAdd h data d size ≤ (data.length : Int) := by
  unfold CHECK_DATA
  split <;> simp <;> omega

theorem UNPACK_NUMBER_eq_ok (h : Host) (little : Bool) (data : List Nat) (d : Int) (c : Char)
    (n w size v : Nat) :
    UNPACK_NUMBER h little data d c n w size = .ok v
      ↔ ptrAdd h data d size ≤ (data.length : Int)
        ∧ v = readField h (UNPACK_SCRATCH h little data d size) w := by
  unfold UNPACK_NUMBER
  split
  · rename_i e he
    have : ¬ (ptrAdd h data d size ≤ (data.length : Int)) := by
      intro hle
      rw [(CHECK_DATA_eq_ok h data d size c n ()).mpr hle] at he
      cases he
    simp [this]
  · rename_i u hu
    have := (CHECK_DATA_eq_ok _ _ _ _ _ _ _).mp hu
    simp [this, eq_comm]

theorem read_number_length (f : List Char) (dflt : Nat) :
    (read_number f dflt).2.length ≤ f.length := by
  unfold read_number
  split
  · have := (List.dropWhile_sublist isdigit (l := f)).length_le
    simpa using this
  · exact le_refl _

set_option linter.unusedTactic false in
theorem unpack_step_ok (h : Host) (data : List Nat) (c : Char) (f : List Char) (d : Int)
    (little : Bool) (vals : List LuaValue) (s : UnpackState)
    (hs : l_unpack_step h data c f d little vals = .ok s) :
    (d ≤ (data.length : Int) → s.d ≤ (data.length : Int)) ∧ s.f.length ≤ f.length := by
  have hr4 := read_number_length f 4
  have hr2 := read_number_length f 2
  have hr1 := read_number_length f 1
  have hr0 := read_number_length f 0
  by_cases h0 : c = '<'
  · subst h0
    simp only [l_unpack_step] at hs
    repeat' split at hs
    all_goals try cases hs
    all_goals try simp only [CHECK_DATA_eq_ok, UNPACK_NUMBER_eq_ok] at *
    all_goals try dsimp only
    all_goals try split_ifs at *
    all_goals omega
  by_cases h1 : c = '>'
  · subst h1
    simp only [l_unpack_step] at hs
    repeat' split at hs
    all_goals try cases hs
    all_goals try simp only [CHECK_DATA_eq_ok, UNPACK_NUMBER_eq_ok] at *
    all_goals try dsimp only
    all_goals try split_ifs at *
    all_goals omega
  by_cases h2 : c = '='
  · subst h2
    simp only [l_unpack_step] at hs
    repeat' split at hs
    all_goals try cases hs
    all_goals try simp only [CHECK_DATA_eq_ok, UNPACK_NUMBER_eq_ok] at *
    all_goals try dsimp only
    all_goals try split_ifs at *
    all_goals omega
  by_cases h3 : c = 'c'
  · subst h3
    simp only [l_unpack_step] at hs
    repeat' split at hs
    all_goals try cases hs
    all_goals try simp only [CHECK_DATA_eq_ok, UNPACK_NUMBER_eq_ok] at *
    all_goals try dsimp only
    all_goals try split_ifs at *
    all_goals omega
  by_cases h4 : c = 'b'
  · subst h4
    simp only [l_unpack_step] at hs
    repeat' split at hs
    all_goals try cases hs
    all_goals try simp only [CHECK_DATA_eq_ok, UNPACK_NUMBER_eq_ok] at *
    all_goals try dsimp only
    all_goals try split_ifs at *
    all_goals omega
  by_cases h5 : c = 'B'
  · subst h5
    simp only [l_unpack_step] at hs
    repeat' split at hs
    all_goals try cases hs
    all_goals try simp only [CHECK_DATA_eq_ok, UNPACK_NUMBER_eq_ok] at *
    all_goals try dsimp only
    all_goals try split_ifs at *
    all_goals omega
  by_cases h6 : c = 'h'
  · subst h6
    simp only [l_unpack_step] at hs
    repeat' split at hs
    all_goals try cases hs
    all_goals try simp only [CHECK_DATA_eq_ok, UNPACK_NUMBER_eq_ok] at *
    all_goals try dsimp only
    all_goals try split_ifs at *
    all_goals omega
  by_cases h7 : c = 'H'
  · subst h7
    simp only [l_unpack_step] at hs
    repeat' split at hs
    all_goals try cases hs
    all_goals try simp only [CHECK_DATA_eq_ok, UNPACK_NUMBER_eq_ok] at *
    all_goals try dsimp only
    all_goals try split_ifs at *
    all_goals omega
  by_cases h8 : c = 'l'
  · subst h8
    simp only [l_unpack_step] at hs
    repeat' split at hs
    all_goals try cases hs
    all_goals try simp only [CHECK_DATA_eq_ok, UNPACK_NUMBER_eq_ok] at *
    all_goals try dsimp only
    all_goals try split_ifs at *
    all_goals omega
  by_cases h9 : c = 'L'
  · subst h9
    simp only [l_unpack_step] at hs
    repeat' split at hs
    all_goals try cases hs
    all_goals try simp only [CHECK_DATA_eq_ok, UNPACK_NUMBER_eq_ok] at *
    all_goals try dsimp only
    all_goals try split_ifs at *
    all_goals omega
  by_cases h10 : c = 'f'
  · subst h10
    simp only [l_unpack_step] at hs
    repeat' split at hs
    all_goals try cases hs
    all_goals try simp only [CHECK_DATA_eq_ok, UNPACK_NUMBER_eq_ok] at *
    all_goals try dsimp only
    all_goals try split_ifs at *
    all_goals omega
  by_cases h11 : c = 'd'
  · subst h11
    simp only [l_unpack_step] at hs
    repeat' split at hs
    all_goals try cases hs
    all_goals try simp only [CHECK_DATA_eq_ok, UNPACK_NUMBER_eq_ok] at *
    all_goals try dsimp only
    all_goals try split_ifs at *
    all_goals omega
  by_cases h12 : c = 'i'
  · subst h12
    simp only [l_unpack_step] at hs
    repeat' split at hs
    all_goals try cases hs
    all_goals try simp only [CHECK_DATA_eq_ok, UNPACK_NUMBER_eq_ok] at *
    all_goals try dsimp only
    all_goals try split_ifs at *
    all_goals omega
  by_cases h13 : c = 'I'
  · subst h13
    simp only [l_unpack_step] at hs
    repeat' split at hs
    all_goals try cases hs
    all_goals try simp only [CHECK_DATA_eq_ok, UNPACK_NUMBER_eq_ok] at *
    all_goals try dsimp only
    all_goals try split_ifs at *
    all_goals omega
  by_cases h14 : c = 'z'
  · subst h14
    simp only [l_unpack_step] at hs
    repeat' split at hs
    all_goals try cases hs
    all_goals try simp only [CHECK_DATA_eq_ok, UNPACK_NUMBER_eq_ok] at *
    all_goals try dsimp only
    all_goals try split_ifs at *
    all_goals omega
  by_cases h15 : c = 'p'
  · subst h15
    simp only [l_unpack_step] at hs
    repeat' split at hs
    all_goals try cases hs
    all_goals try simp only [CHECK_DATA_eq_ok, UNPACK_NUMBER_eq_ok] at *
    all_goals try dsimp only
    all_goals try split_ifs at *
    all_goals omega
  by_cases h16 : c = 's'
  · subst h16
    simp only [l_unpack_step] at hs
    repeat' split at hs
    all_goals try cases hs
    all_goals try simp only [CHECK_DATA_eq_ok, UNPACK_NUMBER_eq_ok] at *
    all_goals try dsimp only
    all_goals try split_ifs at *
    all_goals omega
  by_cases h17 : c = 'x'
  · subst h17
    simp only [l_unpack_step] at hs
    repeat' split at hs
    all_goals try cases hs
    all_goals try simp only [CHECK_DATA_eq_ok, UNPACK_NUMBER_eq_ok] at *
    all_goals try dsimp only
    all_goals try split_ifs at *
    all_goals omega
  by_cases h18 : c = ' '
  · subst h18
    simp only [l_unpack_step] at hs
    repeat' split at hs
    all_goals try cases hs
    all_goals try simp only [CHECK_DATA_eq_ok, UNPACK_NUMBER_eq_ok] at *
    all_goals try dsimp only
    all_goals try split_ifs at *
    all_goals omega
  simp only [l_unpack_step] at hs
  cases hs

/-! ## Single directives of `l_pack` -/

theorem read_number_digits (ds : List Char) (dflt : Nat) (hds : ∀ x ∈ ds, isdigit x = true) :
    (read_number ds dflt).2 = [] := by
  have := read_number_append ds [] dflt hds (by decide)
  rw [List.append_nil] at this
  rw [this]

theorem pack_x_fill (h : Host) (ds vs : List Char) (L : List LuaValue)
    (hds : ∀ x ∈ ds, isdigit x = true) (hvs : ∀ x ∈ vs, isdigit x = true)
    (hN : (read_number ds 1).1 ≤ h.LUAL_BUFFERSIZE) :
    l_pack h ('x' :: (ds ++ ',' :: vs)) L
      = .ok (List.replicate (read_number ds 1).1 ((read_number vs 0).1 % 256)) := by
  have hrn := read_number_append ds (',' :: vs) 1 hds (by rfl)
  have hle : ¬ h.LUAL_BUFFERSIZE < (read_number ds 1).1 := by omega
  have hv := read_number_digits vs 0 hvs
  have hp : peek (',' :: vs) = ',' := rfl
  rw [l_pack, List.length_cons, pack_loop_step]
  simp only [l_pack_step, hrn, gt_iff_lt, if_neg hle, hp, if_true, List.tail_cons, hv,
    List.nil_append]
  cases (ds ++ ',' :: vs).length <;> rfl

theorem pack_x_plain (h : Host) (ds : List Char) (L : List LuaValue)
    (hds : ∀ x ∈ ds, isdigit x = true) (hN : (read_number ds 1).1 ≤ h.LUAL_BUFFERSIZE) :
    l_pack h ('x' :: ds) L = .ok (List.replicate (read_number ds 1).1 0) := by
  have hrn := read_number_digits ds 1 hds
  have hle : ¬ h.LUAL_BUFFERSIZE < (read_number ds 1).1 := by omega
  have hp : ¬ peek [] = ',' := by decide
  rw [l_pack, List.length_cons, pack_loop_step]
  simp only [l_pack_step, hrn, gt_iff_lt, if_neg hle, hp, if_false, List.nil_append]
  cases ds.length <;> rfl

theorem pack_s_sized (h : Host) (ds : List Char) (s : List Nat) (hne : ds ≠ [])
    (hds : ∀ x ∈ ds, isdigit x = true) (hN : 1 ≤ (read_number ds 0).1) :
    l_pack h ('s' :: ds) [.str s]
      = .ok (s.take (min (read_number ds 0).1 s.length)
          ++ List.replicate ((read_number ds 0).1 - min (read_number ds 0).1 s.length) 0) := by
  have hrn := read_number_digits ds 0 hds
  have hpk : isdigit (peek ds) = true := by
    cases ds with
    | nil => exact absurd rfl hne
    | cons d ds => simpa [peek] using hds d (by simp)
  have h0 : ¬ (read_number ds 0).1 = 0 := by omega
  have ha : luaL_checkstring [.str s] 2 = .ok s := rfl
  rw [l_pack, List.length_cons, pack_loop_step]
  simp only [l_pack_step, ha, hpk, if_true, if_neg h0, hrn, List.nil_append]
  cases ds.length <;> rfl

theorem pack_s_whole (h : Host) (s : List Nat) (hs : s ≠ []) :
    l_pack h ['s'] [.str s] = .ok s := by
  have ha : luaL_checkstring [.str s] 2 = .ok s := rfl
  have hp : isdigit (peek []) = false := by decide
  have h0 : ¬ s.length = 0 := by
    intro e
    exact hs (List.length_eq_zero.mp e)
  rw [l_pack, List.length_singleton, pack_loop_step]
  simp only [l_pack_step, ha, hp, Bool.false_eq_true, if_false, if_neg h0, List.nil_append,
    Nat.min_self, Nat.sub_self, List.replicate_zero, List.append_nil, List.take_length,
    l_pack_loop]

theorem pack_step_x_fill (h : Host) (L : List LuaValue) (ds vs rest : List Char) (argi : Nat)
    (little : Bool) (buf : List Nat) (hds : ∀ x ∈ ds, isdigit x = true)
    (hvs : ∀ x ∈ vs, isdigit x = true) (hrest : isdigit (peek rest) = false)
    (hN : (read_number ds 1).1 ≤ h.LUAL_BUFFERSIZE) :
    l_pack_step h L 'x' (ds ++ ',' :: (vs ++ rest)) argi little buf
      = .ok ⟨rest, argi, little,
          buf ++ List.replicate (read_number ds 1).1 ((read_number vs 0).1 % 256)⟩ := by
  have hrn := read_number_append ds (',' :: (vs ++ rest)) 1 hds (by rfl)
  have hle : ¬ h.LUAL_BUFFERSIZE < (read_number ds 1).1 := by omega
  have hv := read_number_append vs rest 0 hvs hrest
  have hp : peek (',' :: (vs ++ rest)) = ',' := rfl
  simp only [l_pack_step, hrn, gt_iff_lt, if_neg hle, hp, if_true, List.tail_cons, hv]

theorem pack_step_x_plain (h : Host) (L : List LuaValue) (ds rest : List Char) (argi : Nat)
    (little : Bool) (buf : List Nat) (hds : ∀ x ∈ ds, isdigit x = true)
    (hrest : startsClean rest) (hN : (read_number ds 1).1 ≤ h.LUAL_BUFFERSIZE) :
    l_pack_step h L 'x' (ds ++ rest) argi little buf
      = .ok ⟨rest, argi, little, buf ++ List.replicate (read_number ds 1).1 0⟩ := by
  have hrn := read_number_append ds rest 1 hds hrest.1
  have hle : ¬ h.LUAL_BUFFERSIZE < (read_number ds 1).1 := by omega
  simp only [l_pack_step, hrn, gt_iff_lt, if_neg hle, if_neg hrest.2]

/-! ## `l_unpack` at the end of the buffer -/

theorem unpack_loop_at_end (h : Host) (data : List Nat) (fuel : Nat) (f : List Char) (d : Int)
    (little : Bool) (vals : List LuaValue) (hd : (data.length : Int) ≤ d) :
    l_unpack_loop h data fuel f d little vals = .ok (d + 1, vals) :=
  unpack_loop_stop h data fuel f d little vals (fun hh => absurd hh.1 (not_lt.mpr hd))

theorem memAt_to_end (data : List Nat) (k : Nat) :
    memAt data (k : Int) (data.length - k) = data.drop k := by
  have h0 : ¬ ((k : Int) < 0) := by omega
  simp only [memAt, if_neg h0, Int.toNat_ofNat]
  rw [List.take_append_of_le_length (by simp), List.take_of_length_le (by simp)]

theorem unpack_read_to_end (h : Host) (data : List Nat) (start : Int) (h1 : 1 ≤ start)
    (h2 : start ≤ data.length) :
    l_unpack h ['s'] data start
      = .ok ((data.length : Int) + 1, [.str (data.drop (start - 1).toNat)]) := by
  obtain ⟨k, hk⟩ : ∃ k : Nat, start - 1 = (k : Int) := ⟨(start - 1).toNat, by omega⟩
  have hkl : k < data.length := by omega
  have hsz : (max 0 ((data.length : Int) - (k : Int))).toNat = data.length - k := by omega
  have e : ptrAdd h data (k : Int) (data.length - k) = data.length := by
    rw [ptrAdd_eq h data _ _ (by omega)]
    omega
  have hc : CHECK_DATA h data (k : Int) (data.length - k) 's' 1 = .ok () := by
    simp only [CHECK_DATA, e]
    rw [if_neg]
    omega
  have hd : ((k : Int) < (data.length : Int)) ∧ 's' ≠ Char.ofNat 0 := ⟨by omega, by decide⟩
  have hp : isdigit (peek []) = false := by decide
  simp only [l_unpack, List.length_singleton, hk, Int.toNat_ofNat]
  rw [unpack_loop_step h data 0 's' [] k h.little [] hd]
  simp only [l_unpack_step, hp, hsz, List.length_nil, Nat.zero_add, hc, Bool.false_eq_true,
    if_false, memAt_to_end data k, l_unpack_loop, List.nil_append, e]

/-! ## Runs of `l_unpack` -/

theorem unpack_loop_run (h : Host) (data : List Nat) :
    ∀ (k m : Nat) (s0 s : UnpackState), l_unpack_run h data k s0 = .ok s →
      l_unpack_loop h data (k + m) s0.f s0.d s0.little s0.vals
        = l_unpack_loop h data m s.f s.d s.little s.vals := by
  intro k
  induction k with
  | zero =>
    intro m s0 s hr
    simp only [l_unpack_run, Except.ok.injEq] at hr
    rw [Nat.zero_add, hr]
  | succ k ih =>
    intro m s0 s hr
    rw [show k + 1 + m = (k + m) + 1 by omega]
    rw [l_unpack_run] at hr
    cases hf : s0.f with
    | nil =>
      rw [hf] at hr
      simp only [Except.ok.injEq] at hr
      subst hr
      rw [hf]
      cases m <;> rfl
    | cons c f =>
      rw [hf] at hr
      simp only at hr
      split at hr
      · rename_i hc
        rw [unpack_loop_step h data (k + m) c f s0.d s0.little s0.vals hc]
        cases hs : l_unpack_step h data c f s0.d s0.little s0.vals with
        | error e => rw [hs] at hr; cases hr
        | ok s1 =>
          rw [hs] at hr
          exact ih m s1 s hr
      · rename_i hc
        simp only [Except.ok.injEq] at hr
        subst hr
        rw [hf, unpack_loop_stop h data _ (c :: f) _ _ _ (by simpa [peek] using hc),
          unpack_loop_stop h data _ (c :: f) _ _ _ (by simpa [peek] using hc)]

theorem unpack_run_length (h : Host) (data : List Nat) :
    ∀ (k : Nat) (s0 s : UnpackState), l_unpack_run h data k s0 = .ok s →
      s.d < (data.length : Int) ∧ peek s.f ≠ Char.ofNat 0 → s.f.length + k ≤ s0.f.length := by
  intro k
  induction k with
  | zero =>
    intro s0 s hr _
    simp only [l_unpack_run, Except.ok.injEq] at hr
    rw [hr]; omega
  | succ k ih =>
    intro s0 s hr hgo
    rw [l_unpack_run] at hr
    cases hf : s0.f with
    | nil =>
      rw [hf] at hr
      simp only [Except.ok.injEq] at hr
      subst hr
      rw [hf] at hgo
      exact absurd rfl hgo.2
    | cons c f =>
      rw [hf] at hr
      simp only at hr
      split at hr
      · cases hs : l_unpack_step h data c f s0.d s0.little s0.vals with
        | error e => rw [hs] at hr; cases hr
        | ok s1 =>
          rw [hs] at hr
          have := ih s1 s hr hgo
          obtain ⟨_, h3⟩ := unpack_step_ok h data c f s0.d s0.little s0.vals s1 hs
          simp only [List.length_cons]
          omega
      · rename_i hc
        simp only [Except.ok.injEq] at hr
        subst hr
        rw [hf] at hgo
        exact absurd (by simpa [peek] using hgo) hc

/-! ## Directives that need more data than remains -/

theorem CHECK_DATA_error (h : Host) (data : List Nat) (d : Int) (size : Nat) (c : Char)
    (n : Nat) (hgt : d + (size : Int) > (data.length : Int))
    (hnw : d + (size : Int) ≤ (data.length : Int) + (h.room : Int)) :
    CHECK_DATA h data d size c n = .error (.hitEndOfData c n) := by
  simp only [CHECK_DATA, ptrAdd_eq h data d size hnw, if_pos hgt]

theorem UNPACK_NUMBER_error (h : Host) (little : Bool) (data : List Nat) (d : Int) (c : Char)
    (n w size : Nat) (hgt : d + (size : Int) > (data.length : Int))
    (hnw : d + (size : Int) ≤ (data.length : Int) + (h.room : Int)) :
    UNPACK_NUMBER h little data d c n w size = .error (.hitEndOfData c n) := by
  simp only [UNPACK_NUMBER, CHECK_DATA_error h data d size c n hgt hnw]

theorem strlen_no_zero (data : List Nat) (d : Int) (hd : 0 ≤ d)
    (hz : ∀ b ∈ data.drop d.toNat, b ≠ 0) :
    strlen data d = data.length - d.toNat := by
  have h0 : ¬ (d < 0) := by omega
  have htw : (data.drop d.toNat).takeWhile (fun b => b != 0) = data.drop d.toNat :=
    List.takeWhile_eq_self_iff.mpr (by simpa using hz)
  simp only [strlen, if_neg h0, htw, List.length_drop]

theorem decimal_lt (ds : List Char) (hds : ∀ x ∈ ds, isdigit x = true) :
    decimal ds < 10 ^ ds.length := by
  induction ds using List.reverseRecOn with
  | nil => simp [decimal]
  | append_singleton ds c ih =>
    have hc := isdigit_range c (hds c (by simp))
    have := ih (fun x hx => hds x (by simp [hx]))
    rw [decimal_append, List.length_append, List.length_singleton, pow_succ]
    omega

theorem sizeWritten_lt (f : List Char) (dflt : Nat) (hd : dflt < 1000000000)
    (h9 : (digitsAt f).length ≤ 9) : sizeWritten (digitsAt f) dflt < 1000000000 := by
  unfold sizeWritten
  split
  · exact hd
  · have h1 := decimal_lt (digitsAt f) (digitsAt_digits f)
    have h2 : 10 ^ (digitsAt f).length ≤ 10 ^ 9 := Nat.pow_le_pow_right (by norm_num) h9
    norm_num at h2
    omega

theorem digitsAt_peek (f : List Char) (hne : digitsAt f ≠ []) : isdigit (peek f) = true := by
  cases f with
  | nil => exact absurd rfl hne
  | cons c cs =>
    cases hc : isdigit c
    · simp [digitsAt, List.takeWhile, hc] at hne
    · simpa [peek] using hc

theorem ofLeBytes_lt (l : List Nat) (hl : ∀ b ∈ l, b < 256) : ofLeBytes l < 256 ^ l.length := by
  induction l with
  | nil => simp [ofLeBytes]
  | cons b bs ih =>
    have h1 := hl b (by simp)
    have h2 := ih (fun x hx => hl x (by simp [hx]))
    simp only [ofLeBytes, List.length_cons, pow_succ]
    omega

theorem memAt_lt (data : List Nat) (d : Int) (n : Nat) (hb : ∀ b ∈ data, b < 256) :
    ∀ b ∈ memAt data d n, b < 256 := by
  intro b hm
  unfold memAt at hm
  split at hm
  · have := List.mem_of_mem_take hm
    simp only [List.mem_append, List.mem_replicate] at this
    rcases this with ⟨_, rfl⟩ | h1 | ⟨_, rfl⟩
    · decide
    · exact hb b h1
    · decide
  · have := List.mem_of_mem_take hm
    simp only [List.mem_append, List.mem_replicate] at this
    rcases this with h1 | ⟨_, rfl⟩
    · exact hb b (List.mem_of_mem_drop h1)
    · decide

theorem memAt_length (data : List Nat) (d : Int) (n : Nat) : (memAt data d n).length = n := by
  unfold memAt
  split
  · simp
    omega
  · simp

theorem readField_lt (h : Host) (little : Bool) (data : List Nat) (d : Int) (size : Nat)
    (hs : size ≤ 8) (hb : ∀ b ∈ data, b < 256) :
    readField h (UNPACK_SCRATCH h little data d size) 4 < 4294967296 := by
  have hm := memAt_lt data d size hb
  have hlen := memAt_length data d size
  have htab : ∀ b ∈ (if (!little) = true then List.replicate (8 - size) 0 ++ memAt data d size
      else memAt data d size ++ List.replicate (8 - size) 0), b < 256 := by
    intro b hbm
    split at hbm <;> simp only [List.mem_append, List.mem_replicate] at hbm
    · rcases hbm with ⟨_, rfl⟩ | h1
      · decide
      · exact hm b h1
    · rcases hbm with h1 | ⟨_, rfl⟩
      · exact hm b h1
      · decide
  have htl : (if (!little) = true then List.replicate (8 - size) 0 ++ memAt data d size
      else memAt data d size ++ List.replicate (8 - size) 0).length ≤ 8 := by
    split <;> simp [hlen] <;> omega
  have hscr : ∀ b ∈ UNPACK_SCRATCH h little data d size, b < 256 := by
    intro b hbm
    unfold UNPACK_SCRATCH at hbm
    simp only at hbm
    split at hbm
    · rw [swap_endian_eq_reverse _ htl, List.mem_reverse] at hbm
      exact htab b hbm
    · exact htab b hbm
  have key : ∀ l : List Nat, (∀ b ∈ l, b < 256) → l.length ≤ 4 → ofLeBytes l < 4294967296 := by
    intro l hl h4
    have h1 := ofLeBytes_lt l hl
    have h2 : 256 ^ l.length ≤ 256 ^ 4 := Nat.pow_le_pow_right (by norm_num) h4
    norm_num at h2
    omega
  unfold readField
  split
  · exact key _ (fun b hbm => hscr b (List.mem_of_mem_take hbm)) (by simp)
  · exact key _ (fun b hbm => hscr b (List.mem_of_mem_take (List.mem_reverse.mp hbm)))
      (by simp)

theorem needsMore_char (h : Host) (data : List Nat) (c : Char) (f : List Char) (d : Int)
    (little : Bool) (hn : needsMore h data c f d little) : c ≠ Char.ofNat 0 := by
  rcases hn with ⟨rfl | rfl | rfl, _⟩ | ⟨rfl | rfl, _⟩ | ⟨rfl, _⟩ | ⟨rfl, _⟩
    | ⟨_, ⟨rfl | rfl, _⟩ | ⟨rfl, _⟩ | ⟨rfl, _⟩ | ⟨rfl, _⟩⟩ | ⟨rfl, _⟩ <;> decide

theorem unpack_step_out_of_data (h : Host) (data : List Nat) (c : Char) (f : List Char)
    (d : Int) (little : Bool) (vals : List LuaValue) (hroom : 4294967296 ≤ h.room)
    (hb : ∀ b ∈ data, b < 256) (hlt : d < (data.length : Int))
    (hn : needsMore h data c f d little) :
    ∃ e, l_unpack_step h data c f d little vals = .error e := by
  rcases hn with ⟨rfl | rfl | rfl, hg⟩ | ⟨rfl | rfl, hg⟩ | ⟨rfl, hg⟩ | ⟨rfl, hg⟩
    | ⟨h9, ⟨rfl | rfl, hg⟩ | ⟨rfl, hdig, hg⟩ | ⟨rfl, hg⟩ | ⟨rfl, hg⟩⟩ | ⟨rfl, hd, hz⟩
  · simp only [l_unpack_step, CHECK_DATA_error h data d 1 _ _ hg (by omega)]
    exact ⟨_, rfl⟩
  · simp only [l_unpack_step, UNPACK_NUMBER_error h little data d _ _ _ 1 hg (by omega)]
    exact ⟨_, rfl⟩
  · simp only [l_unpack_step, UNPACK_NUMBER_error h little data d _ _ _ 1 hg (by omega)]
    exact ⟨_, rfl⟩
  · simp only [l_unpack_step, UNPACK_NUMBER_error h little data d _ _ _ 2 hg (by omega)]
    exact ⟨_, rfl⟩
  · simp only [l_unpack_step, UNPACK_NUMBER_error h little data d _ _ _ 2 hg (by omega)]
    exact ⟨_, rfl⟩
  · simp only [l_unpack_step, UNPACK_NUMBER_error h little data d _ _ _ 4 hg (by omega)]
    exact ⟨_, rfl⟩
  · simp only [l_unpack_step, UNPACK_NUMBER_error h little data d _ _ _ 8 hg (by omega)]
    exact ⟨_, rfl⟩
  · have hlt9 := sizeWritten_lt f 4 (by norm_num) h9
    simp only [l_unpack_step, read_number_digitsAt f 4 h9,
      UNPACK_NUMBER_error h little data d _ _ _ _ hg (by omega)]
    split
    · omega
    · split <;> exact ⟨_, rfl⟩
  · have hlt9 := sizeWritten_lt f 4 (by norm_num) h9
    simp only [l_unpack_step, read_number_digitsAt f 4 h9,
      UNPACK_NUMBER_error h little data d _ _ _ _ hg (by omega)]
    split
    · omega
    · split <;> exact ⟨_, rfl⟩
  · have hlt9 := sizeWritten_lt f 0 (by norm_num) h9
    have hsw : sizeWritten (digitsAt f) 0 = decimal (digitsAt f) := by
      simp [sizeWritten, hdig]
    rw [hsw] at hlt9
    have hrn := read_number_digitsAt f 0 h9
    rw [hsw] at hrn
    simp only [l_unpack_step, digitsAt_peek f hdig, if_true, hrn,
      CHECK_DATA_error h data d _ _ _ hg (by omega)]
    exact ⟨_, rfl⟩
  · have hlt9 := sizeWritten_lt f 1 (by norm_num) h9
    simp only [l_unpack_step, read_number_digitsAt f 1 h9,
      CHECK_DATA_error h data d _ _ _ hg (by omega)]
    exact ⟨_, rfl⟩
  · simp only [l_unpack_step, read_number_digitsAt f 2 h9]
    split
    · exact ⟨_, rfl⟩
    · rename_i h4
      rcases hg with hg | hg
      · simp only [CHECK_DATA_error h data d _ _ _ hg (by omega)]
        exact ⟨_, rfl⟩
      · cases hc : CHECK_DATA h data d (sizeWritten (digitsAt f) 2) 'p' (vals.length + 1) with
        | error e => exact ⟨_, rfl⟩
        | ok u =>
          have hle := (CHECK_DATA_eq_ok _ _ _ _ _ _ _).mp hc
          have hu := (UNPACK_NUMBER_eq_ok h little data d 'p' (vals.length + 1) 4
            (sizeWritten (digitsAt f) 2) _).mpr ⟨hle, rfl⟩
          have hpa := ptrAdd_eq h data d (sizeWritten (digitsAt f) 2) (by omega)
          have hrf := readField_lt h little data d (sizeWritten (digitsAt f) 2) (by omega) hb
          rw [hpa] at hle
          simp only [hu, hpa, CHECK_DATA_error h data _ _ _ _ hg (by omega)]
          exact ⟨_, rfl⟩
  · have hsl := strlen_no_zero data d hd hz
    have hce := CHECK_DATA_error h data d (strlen data d + 1) 'z' (vals.length + 1)
      (by rw [hsl]; push_cast; omega) (by rw [hsl]; push_cast; omega)
    simp only [l_unpack_step, hce]
    exact ⟨_, rfl⟩

/-! ## Facts about one directive of `l_pack` -/

theorem read_number_append_any (f g : List Char) (dflt : Nat)
    (hg : isdigit (peek g) = false) :
    read_number (f ++ g) dflt = ((read_number f dflt).1, (read_number f dflt).2 ++ g) := by
  have hsplit : f = f.takeWhile isdigit ++ f.dropWhile isdigit := by simp
  by_cases hdrop : f.dropWhile isdigit = []
  · have hall : ∀ x ∈ f, isdigit x = true := List.dropWhile_eq_nil_iff.mp hdrop
    rw [read_number_append f g dflt hall hg, read_number_digits f dflt hall, List.nil_append]
  · have hrest : isdigit (peek (f.dropWhile isdigit ++ g)) = false := by
      cases hd : f.dropWhile isdigit with
      | nil => exact absurd hd hdrop
      | cons c cs =>
        have := List.head_dropWhile_not isdigit f (by rw [hd]; simp)
        simp only [hd, List.head_cons] at this
        simpa [peek] using this
    have hrest2 : isdigit (peek (f.dropWhile isdigit)) = false := by
      cases hd : f.dropWhile isdigit with
      | nil => exact absurd hd hdrop
      | cons c cs =>
        have := List.head_dropWhile_not isdigit f (by rw [hd]; simp)
        simp only [hd, List.head_cons] at this
        simpa [peek] using this
    have hds : ∀ x ∈ f.takeWhile isdigit, isdigit x = true :=
      fun x hx => List.mem_takeWhile_imp hx
    have e1 := read_number_append (f.takeWhile isdigit) (f.dropWhile isdigit ++ g) dflt hds hrest
    have e2 := read_number_append (f.takeWhile isdigit) (f.dropWhile isdigit) dflt hds hrest2
    rw [← List.append_assoc, List.takeWhile_append_dropWhile] at e1
    rw [List.takeWhile_append_dropWhile] at e2
    rw [e1, e2]

theorem peek_append (f g : List Char) (hg : startsClean g) :
    isdigit (peek (f ++ g)) = isdigit (peek f) ∧ (peek (f ++ g) = ',' ↔ peek f = ',') := by
  cases f with
  | nil =>
    have h0 : isdigit (peek []) = false := by decide
    have h1 : ¬ peek [] = ',' := by decide
    simp [hg.1, hg.2, h0, h1]
  | cons c f => simp [peek]

theorem tail_append_of_peek (f g : List Char) (hf : peek f = ',') :
    (f ++ g).tail = f.tail ++ g := by
  cases f with
  | nil => exact absurd hf (by decide)
  | cons c f => rfl

set_option linter.unusedTactic false in
set_option linter.unreachableTactic false in
theorem pack_step_append (h : Host) (L : List LuaValue) (c : Char) (f g : List Char)
    (argi : Nat) (little : Bool) (buf : List Nat) (hg : startsClean g) :
    l_pack_step h L c (f ++ g) argi little buf
      = (l_pack_step h L c f argi little buf).map
          (fun s => ⟨s.f ++ g, s.argi, s.little, s.buf⟩) := by
  have hrn : ∀ (f : List Char) (dflt : Nat), read_number (f ++ g) dflt
      = ((read_number f dflt).1, (read_number f dflt).2 ++ g) :=
    fun f dflt => read_number_append_any f g dflt hg.1
  have hp1 : ∀ f : List Char, isdigit (peek (f ++ g)) = isdigit (peek f) :=
    fun f => (peek_append f g hg).1
  have hp2 : ∀ f : List Char, (peek (f ++ g) = ',') = (peek f = ',') :=
    fun f => propext (peek_append f g hg).2
  have ht : ∀ f : List Char, peek f = ',' → (f ++ g).tail = f.tail ++ g :=
    fun f hf => tail_append_of_peek f g hf
  by_cases h0 : c = '<'
  · subst h0
    simp only [l_pack_step, hrn, hp1, hp2]
    repeat' split
    all_goals try rfl
    all_goals try simp_all [Except.map]
  by_cases h1 : c = '>'
  · subst h1
    simp only [l_pack_step, hrn, hp1, hp2]
    repeat' split
    all_goals try rfl
    all_goals try simp_all [Except.map]
  by_cases h2 : c = '='
  · subst h2
    simp only [l_pack_step, hrn, hp1, hp2]
    repeat' split
    all_goals try rfl
    all_goals try simp_all [Except.map]
  by_cases h3 : c = 'c'
  · subst h3
    simp only [l_pack_step, hrn, hp1, hp2]
    repeat' split
    all_goals try rfl
    all_goals try simp_all [Except.map]
  by_cases h4 : c = 'b'
  · subst h4
    simp only [l_pack_step, hrn, hp1, hp2]
    repeat' split
    all_goals try rfl
    all_goals try simp_all [Except.map]
  by_cases h5 : c = 'B'
  · subst h5
    simp only [l_pack_step, hrn, hp1, hp2]
    repeat' split
    all_goals try rfl
    all_goals try simp_all [Except.map]
  by_cases h6 : c = 'h'
  · subst h6
    simp only [l_pack_step, hrn, hp1, hp2]
    repeat' split
    all_goals try rfl
    all_goals try simp_all [Except.map]
  by_cases h7 : c = 'H'
  · subst h7
    simp only [l_pack_step, hrn, hp1, hp2]
    repeat' split
    all_goals try rfl
    all_goals try simp_all [Except.map]
  by_cases h8 : c = 'l'
  · subst h8
    simp only [l_pack_step, hrn, hp1, hp2]
    repeat' split
    all_goals try rfl
    all_goals try simp_all [Except.map]
  by_cases h9 : c = 'L'
  · subst h9
    simp only [l_pack_step, hrn, hp1, hp2]
    repeat' split
    all_goals try rfl
    all_goals try simp_all [Except.map]
  by_cases h10 : c = 'f'
  · subst h10
    simp only [l_pack_step, hrn, hp1, hp2]
    repeat' split
    all_goals try rfl
    all_goals try simp_all [Except.map]
  by_cases h11 : c = 'd'
  · subst h11
    simp only [l_pack_step, hrn, hp1, hp2]
    repeat' split
    all_goals try rfl
    all_goals try simp_all [Except.map]
  by_cases h12 : c = 'i'
  · subst h12
    simp only [l_pack_step, hrn, hp1, hp2]
    repeat' split
    all_goals try rfl
    all_goals try simp_all [Except.map]
  by_cases h13 : c = 'I'
  · subst h13
    simp only [l_pack_step, hrn, hp1, hp2]
    repeat' split
    all_goals try rfl
    all_goals try simp_all [Except.map]
  by_cases h14 : c = 'z'
  · subst h14
    simp only [l_pack_step, hrn, hp1, hp2]
    repeat' split
    all_goals try rfl
    all_goals try simp_all [Except.map]
  by_cases h15 : c = 'p'
  · subst h15
    simp only [l_pack_step, hrn, hp1, hp2]
    repeat' split
    all_goals try rfl
    all_goals try simp_all [Except.map]
  by_cases h16 : c = 's'
  · subst h16
    simp only [l_pack_step, hrn, hp1, hp2]
    repeat' split
    all_goals try rfl
    all_goals try simp_all [Except.map]
  by_cases h17 : c = 'x'
  · subst h17
    simp only [l_pack_step, hrn, hp1, hp2]
    repeat' split
    all_goals try rfl
    all_goals try simp_all [Except.map]
  by_cases h18 : c = ' '
  · subst h18
    simp only [l_pack_step, hrn, hp1, hp2]
    repeat' split
    all_goals try rfl
    all_goals try simp_all [Except.map]
  simp only [l_pack_step, Except.map]

theorem lua_arg_append_left (v1 v2 : List LuaValue) (argi : Nat) (x : LuaValue)
    (hx : lua_arg v1 argi = some x) : lua_arg (v1 ++ v2) argi = some x := by
  unfold lua_arg at hx ⊢
  split at hx
  · cases hx
  · rename_i h2
    rw [if_neg h2]
    rw [List.get?_eq_getElem?] at hx ⊢
    have hlt : argi - 2 < v1.length := by
      by_contra hge
      rw [List.getElem?_eq_none (by omega)] at hx
      cases hx
    rw [List.getElem?_append_left hlt]
    exact hx

theorem checkstring_append (v1 v2 : List LuaValue) (argi : Nat) :
    (∃ e, luaL_checkstring v1 argi = .error e)
      ∨ luaL_checkstring (v1 ++ v2) argi = luaL_checkstring v1 argi := by
  cases hx : lua_arg v1 argi with
  | none =>
    refine Or.inl ⟨.badArgument argi, ?_⟩
    simp only [luaL_checkstring, hx]
  | some x =>
    right
    simp only [luaL_checkstring, hx, lua_arg_append_left v1 v2 argi x hx]

theorem checknumber_append (h : Host) (v1 v2 : List LuaValue) (argi : Nat) :
    (∃ e, ∀ (little : Bool) (conv : Int → Nat) (w size : Nat),
        CASE_PACKNUMBER h v1 argi little conv w size = .error e)
      ∨ (∀ (little : Bool) (conv : Int → Nat) (w size : Nat),
        CASE_PACKNUMBER h (v1 ++ v2) argi little conv w size
          = CASE_PACKNUMBER h v1 argi little conv w size) := by
  cases hx : lua_arg v1 argi with
  | none =>
    refine Or.inl ⟨.badArgument argi, fun _ _ _ _ => ?_⟩
    simp only [CASE_PACKNUMBER, luaL_checknumber, hx]
  | some x =>
    right
    intro little conv w size
    simp only [CASE_PACKNUMBER, luaL_checknumber, hx, lua_arg_append_left v1 v2 argi x hx]

set_option maxHeartbeats 4000000 in
set_option linter.unusedTactic false in
set_option linter.unreachableTactic false in
set_option linter.unnecessarySeqFocus false in
theorem pack_step_more_args (h : Host) (v1 v2 : List LuaValue) (c : Char) (f : List Char)
    (argi : Nat) (little : Bool) (buf : List Nat) (s : PackState)
    (hs : l_pack_step h v1 c f argi little buf = .ok s) :
    l_pack_step h (v1 ++ v2) c f argi little buf = .ok s := by
  have hS := checkstring_append v1 v2 argi
  have hN := checknumber_append h v1 v2 argi
  by_cases h0 : c = '<'
  · subst h0
    rcases hS with ⟨e, he⟩ | he <;> rcases hN with ⟨e1, hn⟩ | hn <;>
      simp only [l_pack_step, he, hn] at hs ⊢ <;>
      first
        | exact hs
        | ((repeat' split at hs) <;> first | (cases hs; done) | simp_all)
  by_cases h1 : c = '>'
  · subst h1
    rcases hS with ⟨e, he⟩ | he <;> rcases hN with ⟨e1, hn⟩ | hn <;>
      simp only [l_pack_step, he, hn] at hs ⊢ <;>
      first
        | exact hs
        | ((repeat' split at hs) <;> first | (cases hs; done) | simp_all)
  by_cases h2 : c = '='
  · subst h2
    rcases hS with ⟨e, he⟩ | he <;> rcases hN with ⟨e1, hn⟩ | hn <;>
      simp only [l_pack_step, he, hn] at hs ⊢ <;>
      first
        | exact hs
        | ((repeat' split at hs) <;> first | (cases hs; done) | simp_all)
  by_cases h3 : c = 'c'
  · subst h3
    rcases hS with ⟨e, he⟩ | he <;> rcases hN with ⟨e1, hn⟩ | hn <;>
      simp only [l_pack_step, he, hn] at hs ⊢ <;>
      first
        | exact hs
        | ((repeat' split at hs) <;> first | (cases hs; done) | simp_all)
  by_cases h4 : c = 'b'
  · subst h4
    rcases hS with ⟨e, he⟩ | he <;> rcases hN with ⟨e1, hn⟩ | hn <;>
      simp only [l_pack_step, he, hn] at hs ⊢ <;>
      first
        | exact hs
        | ((repeat' split at hs) <;> first | (cases hs; done) | simp_all)
  by_cases h5 : c = 'B'
  · subst h5
    rcases hS with ⟨e, he⟩ | he <;> rcases hN with ⟨e1, hn⟩ | hn <;>
      simp only [l_pack_step, he, hn] at hs ⊢ <;>
      first
        | exact hs
        | ((repeat' split at hs) <;> first | (cases hs; done) | simp_all)
  by_cases h6 : c = 'h'
  · subst h6
    rcases hS with ⟨e, he⟩ | he <;> rcases hN with ⟨e1, hn⟩ | hn <;>
      simp only [l_pack_step, he, hn] at hs ⊢ <;>
      first
        | exact hs
        | ((repeat' split at hs) <;> first | (cases hs; done) | simp_all)
  by_cases h7 : c = 'H'
  · subst h7
    rcases hS with ⟨e, he⟩ | he <;> rcases hN with ⟨e1, hn⟩ | hn <;>
      simp only [l_pack_step, he, hn] at hs ⊢ <;>
      first
        | exact hs
        | ((repeat' split at hs) <;> first | (cases hs; done) | simp_all)
  by_cases h8 : c = 'l'
  · subst h8
    rcases hS with ⟨e, he⟩ | he <;> rcases hN with ⟨e1, hn⟩ | hn <;>
      simp only [l_pack_step, he, hn] at hs ⊢ <;>
      first
        | exact hs
        | ((repeat' split at hs) <;> first | (cases hs; done) | simp_all)
  by_cases h9 : c = 'L'
  · subst h9
    rcases hS with ⟨e, he⟩ | he <;> rcases hN with ⟨e1, hn⟩ | hn <;>
      simp only [l_pack_step, he, hn] at hs ⊢ <;>
      first
        | exact hs
        | ((repeat' split at hs) <;> first | (cases hs; done) | simp_all)
  by_cases h10 : c = 'f'
  · subst h10
    rcases hS with ⟨e, he⟩ | he <;> rcases hN with ⟨e1, hn⟩ | hn <;>
      simp only [l_pack_step, he, hn] at hs ⊢ <;>
      first
        | exact hs
        | ((repeat' split at hs) <;> first | (cases hs; done) | simp_all)
  by_cases h11 : c = 'd'
  · subst h11
    rcases hS with ⟨e, he⟩ | he <;> rcases hN with ⟨e1, hn⟩ | hn <;>
      simp only [l_pack_step, he, hn] at hs ⊢ <;>
      first
        | exact hs
        | ((repeat' split at hs) <;> first | (cases hs; done) | simp_all)
  by_cases h12 : c = 'i'
  · subst h12
    rcases hS with ⟨e, he⟩ | he <;> rcases hN with ⟨e1, hn⟩ | hn <;>
      simp only [l_pack_step, he, hn] at hs ⊢ <;>
      first
        | exact hs
        | ((repeat' split at hs) <;> first | (cases hs; done) | simp_all)
  by_cases h13 : c = 'I'
  · subst h13
    rcases hS with ⟨e, he⟩ | he <;> rcases hN with ⟨e1, hn⟩ | hn <;>
      simp only [l_pack_step, he, hn] at hs ⊢ <;>
      first
        | exact hs
        | ((repeat' split at hs) <;> first | (cases hs; done) | simp_all)
  by_cases h14 : c = 'z'
  · subst h14
    rcases hS with ⟨e, he⟩ | he <;> rcases hN with ⟨e1, hn⟩ | hn <;>
      simp only [l_pack_step, he, hn] at hs ⊢ <;>
      first
        | exact hs
        | ((repeat' split at hs) <;> first | (cases hs; done) | simp_all)
  by_cases h15 : c = 'p'
  · subst h15
    rcases hS with ⟨e, he⟩ | he <;> rcases hN with ⟨e1, hn⟩ | hn <;>
      simp only [l_pack_step, he, hn] at hs ⊢ <;>
      first
        | exact hs
        | ((repeat' split at hs) <;> first | (cases hs; done) | simp_all)
  by_cases h16 : c = 's'
  · subst h16
    rcases hS with ⟨e, he⟩ | he <;> rcases hN with ⟨e1, hn⟩ | hn <;>
      simp only [l_pack_step, he, hn] at hs ⊢ <;>
      first
        | exact hs
        | ((repeat' split at hs) <;> first | (cases hs; done) | simp_all)
  by_cases h17 : c = 'x'
  · subst h17
    rcases hS with ⟨e, he⟩ | he <;> rcases hN with ⟨e1, hn⟩ | hn <;>
      simp only [l_pack_step, he, hn] at hs ⊢ <;>
      first
        | exact hs
        | ((repeat' split at hs) <;> first | (cases hs; done) | simp_all)
  by_cases h18 : c = ' '
  · subst h18
    rcases hS with ⟨e, he⟩ | he <;> rcases hN with ⟨e1, hn⟩ | hn <;>
      simp only [l_pack_step, he, hn] at hs ⊢ <;>
      first
        | exact hs
        | ((repeat' split at hs) <;> first | (cases hs; done) | simp_all)
  simp only [l_pack_step] at hs
  cases hs

theorem lua_arg_shift (v1 v2 : List LuaValue) (argi : Nat) (h2 : 2 ≤ argi) :
    lua_arg (v1 ++ v2) (argi + v1.length) = lua_arg v2 argi := by
  unfold lua_arg
  rw [if_neg (by omega), if_neg (by omega), List.get?_eq_getElem?, List.get?_eq_getElem?,
    List.getElem?_append_right (by omega)]
  congr 1
  omega

theorem checkstring_shift (v1 v2 : List LuaValue) (argi : Nat) (h2 : 2 ≤ argi) :
    luaL_checkstring (v1 ++ v2) (argi + v1.length)
      = (luaL_checkstring v2 argi).mapError (shiftArg v1.length) := by
  simp only [luaL_checkstring, lua_arg_shift v1 v2 argi h2]
  cases lua_arg v2 argi with
  | none => rfl
  | some x => cases x <;> rfl

theorem checknumber_shift (h : Host) (v1 v2 : List LuaValue) (argi : Nat) (h2 : 2 ≤ argi)
    (little : Bool) (conv : Int → Nat) (w size : Nat) :
    CASE_PACKNUMBER h (v1 ++ v2) (argi + v1.length) little conv w size
      = (CASE_PACKNUMBER h v2 argi little conv w size).mapError (shiftArg v1.length) := by
  simp only [CASE_PACKNUMBER, luaL_checknumber, lua_arg_shift v1 v2 argi h2]
  cases lua_arg v2 argi with
  | none => rfl
  | some x =>
    cases x with
    | num n => rfl
    | str s => cases ht : h.tonumber s <;> simp [ht, Except.mapError, shiftArg]

set_option maxHeartbeats 4000000 in
set_option linter.unusedTactic false in
set_option linter.unreachableTactic false in
theorem pack_step_shift (h : Host) (v1 v2 : List LuaValue) (c : Char) (f : List Char)
    (argi : Nat) (little : Bool) (b1 buf : List Nat) (h2 : 2 ≤ argi) :
    l_pack_step h (v1 ++ v2) c f (argi + v1.length) little (b1 ++ buf)
      = ((l_pack_step h v2 c f argi little buf).map
          (fun s => ⟨s.f, s.argi + v1.length, s.little, b1 ++ s.buf⟩)).mapError
          (shiftArg v1.length) := by
  have hS := checkstring_shift v1 v2 argi h2
  have hN := checknumber_shift h v1 v2 argi h2
  by_cases h0 : c = '<'
  · subst h0
    simp only [l_pack_step, hS, hN]
    repeat' split
    all_goals try rfl
    all_goals try simp_all [Except.map, Except.mapError, shiftArg]
    all_goals try omega
  by_cases h1 : c = '>'
  · subst h1
    simp only [l_pack_step, hS, hN]
    repeat' split
    all_goals try rfl
    all_goals try simp_all [Except.map, Except.mapError, shiftArg]
    all_goals try omega
  by_cases h2 : c = '='
  · subst h2
    simp only [l_pack_step, hS, hN]
    repeat' split
    all_goals try rfl
    all_goals try simp_all [Except.map, Except.mapError, shiftArg]
    all_goals try omega
  by_cases h3 : c = 'c'
  · subst h3
    simp only [l_pack_step, hS, hN]
    repeat' split
    all_goals try rfl
    all_goals try simp_all [Except.map, Except.mapError, shiftArg]
    all_goals try omega
  by_cases h4 : c = 'b'
  · subst h4
    simp only [l_pack_step, hS, hN]
    repeat' split
    all_goals try rfl
    all_goals try simp_all [Except.map, Except.mapError, shiftArg]
    all_goals try omega
  by_cases h5 : c = 'B'
  · subst h5
    simp only [l_pack_step, hS, hN]
    repeat' split
    all_goals try rfl
    all_goals try simp_all [Except.map, Except.mapError, shiftArg]
    all_goals try omega
  by_cases h6 : c = 'h'
  · subst h6
    simp only [l_pack_step, hS, hN]
    repeat' split
    all_goals try rfl
    all_goals try simp_all [Except.map, Except.mapError, shiftArg]
    all_goals try omega
  by_cases h7 : c = 'H'
  · subst h7
    simp only [l_pack_step, hS, hN]
    repeat' split
    all_goals try rfl
    all_goals try simp_all [Except.map, Except.mapError, shiftArg]
    all_goals try omega
  by_cases h8 : c = 'l'
  · subst h8
    simp only [l_pack_step, hS, hN]
    repeat' split
    all_goals try rfl
    all_goals try simp_all [Except.map, Except.mapError, shiftArg]
    all_goals try omega
  by_cases h9 : c = 'L'
  · subst h9
    simp only [l_pack_step, hS, hN]
    repeat' split
    all_goals try rfl
    all_goals try simp_all [Except.map, Except.mapError, shiftArg]
    all_goals try omega
  by_cases h10 : c = 'f'
  · subst h10
    simp only [l_pack_step, hS, hN]
    repeat' split
    all_goals try rfl
    all_goals try simp_all [Except.map, Except.mapError, shiftArg]
    all_goals try omega
  by_cases h11 : c = 'd'
  · subst h11
    simp only [l_pack_step, hS, hN]
    repeat' split
    all_goals try rfl
    all_goals try simp_all [Except.map, Except.mapError, shiftArg]
    all_goals try omega
  by_cases h12 : c = 'i'
  · subst h12
    simp only [l_pack_step, hS, hN]
    repeat' split
    all_goals try rfl
    all_goals try simp_all [Except.map, Except.mapError, shiftArg]
    all_goals try omega
  by_cases h13 : c = 'I'
  · subst h13
    simp only [l_pack_step, hS, hN]
    repeat' split
    all_goals try rfl
    all_goals try simp_all [Except.map, Except.mapError, shiftArg]
    all_goals try omega
  by_cases h14 : c = 'z'
  · subst h14
    simp only [l_pack_step, hS, hN]
    repeat' split
    all_goals try rfl
    all_goals try simp_all [Except.map, Except.mapError, shiftArg]
    all_goals try omega
  by_cases h15 : c = 'p'
  · subst h15
    simp only [l_pack_step, hS, hN]
    repeat' split
    all_goals try rfl
    all_goals try simp_all [Except.map, Except.mapError, shiftArg]
    all_goals try omega
  by_cases h16 : c = 's'
  · subst h16
    simp only [l_pack_step, hS, hN]
    repeat' split
    all_goals try rfl
    all_goals try simp_all [Except.map, Except.mapError, shiftArg]
    all_goals try omega
  by_cases h17 : c = 'x'
  · subst h17
    simp only [l_pack_step, hS, hN]
    repeat' split
    all_goals try rfl
    all_goals try simp_all [Except.map, Except.mapError, shiftArg]
    all_goals try omega
  by_cases h18 : c = ' '
  · subst h18
    simp only [l_pack_step, hS, hN]
    repeat' split
    all_goals try rfl
    all_goals try simp_all [Except.map, Except.mapError, shiftArg]
    all_goals try omega
  simp only [l_pack_step, Except.map, Except.mapError, shiftArg]

/-! ## Runs of `l_pack` -/

set_option maxHeartbeats 4000000 in
set_option linter.unusedTactic false in
theorem pack_step_ok (h : Host) (L : List LuaValue) (c : Char) (f : List Char)
    (argi : Nat) (little : Bool) (buf : List Nat) (s : PackState)
    (hs : l_pack_step h L c f argi little buf = .ok s) :
    s.f.length ≤ f.length ∧ argi ≤ s.argi := by
  have hr4 := read_number_length f 4
  have hr2 := read_number_length f 2
  have hr1 := read_number_length f 1
  have hr0 := read_number_length f 0
  have hrt := read_number_length (read_number f 1).2.tail 0
  have htl : (read_number f 1).2.tail.length ≤ (read_number f 1).2.length := by
    rw [List.length_tail]
    omega
  by_cases h0 : c = '<'
  · subst h0
    simp only [l_pack_step] at hs
    repeat' split at hs
    all_goals try cases hs
    all_goals try dsimp only
    all_goals try split_ifs at *
    all_goals omega
  by_cases h1 : c = '>'
  · subst h1
    simp only [l_pack_step] at hs
    repeat' split at hs
    all_goals try cases hs
    all_goals try dsimp only
    all_goals try split_ifs at *
    all_goals omega
  by_cases h2 : c = '='
  · subst h2
    simp only [l_pack_step] at hs
    repeat' split at hs
    all_goals try cases hs
    all_goals try dsimp only
    all_goals try split_ifs at *
    all_goals omega
  by_cases h3 : c = 'c'
  · subst h3
    simp only [l_pack_step] at hs
    repeat' split at hs
    all_goals try cases hs
    all_goals try dsimp only
    all_goals try split_ifs at *
    all_goals omega
  by_cases h4 : c = 'b'
  · subst h4
    simp only [l_pack_step] at hs
    repeat' split at hs
    all_goals try cases hs
    all_goals try dsimp only
    all_goals try split_ifs at *
    all_goals omega
  by_cases h5 : c = 'B'
  · subst h5
    simp only [l_pack_step] at hs
    repeat' split at hs
    all_goals try cases hs
    all_goals try dsimp only
    all_goals try split_ifs at *
    all_goals omega
  by_cases h6 : c = 'h'
  · subst h6
    simp only [l_pack_step] at hs
    repeat' split at hs
    all_goals try cases hs
    all_goals try dsimp only
    all_goals try split_ifs at *
    all_goals omega
  by_cases h7 : c = 'H'
  · subst h7
    simp only [l_pack_step] at hs
    repeat' split at hs
    all_goals try cases hs
    all_goals try dsimp only
    all_goals try split_ifs at *
    all_goals omega
  by_cases h8 : c = 'l'
  · subst h8
    simp only [l_pack_step] at hs
    repeat' split at hs
    all_goals try cases hs
    all_goals try dsimp only
    all_goals try split_ifs at *
    all_goals omega
  by_cases h9 : c = 'L'
  · subst h9
    simp only [l_pack_step] at hs
    repeat' split at hs
    all_goals try cases hs
    all_goals try dsimp only
    all_goals try split_ifs at *
    all_goals omega
  by_cases h10 : c = 'f'
  · subst h10
    simp only [l_pack_step] at hs
    repeat' split at hs
    all_goals try cases hs
    all_goals try dsimp only
    all_goals try split_ifs at *
    all_goals omega
  by_cases h11 : c = 'd'
  · subst h11
    simp only [l_pack_step] at hs
    repeat' split at hs
    all_goals try cases hs
    all_goals try dsimp only
    all_goals try split_ifs at *
    all_goals omega
  by_cases h12 : c = 'i'
  · subst h12
    simp only [l_pack_step] at hs
    repeat' split at hs
    all_goals try cases hs
    all_goals try dsimp only
    all_goals try split_ifs at *
    all_goals omega
  by_cases h13 : c = 'I'
  · subst h13
    simp only [l_pack_step] at hs
    repeat' split at hs
    all_goals try cases hs
    all_goals try dsimp only
    all_goals try split_ifs at *
    all_goals omega
  by_cases h14 : c = 'z'
  · subst h14
    simp only [l_pack_step] at hs
    repeat' split at hs
    all_goals try cases hs
    all_goals try dsimp only
    all_goals try split_ifs at *
    all_goals omega
  by_cases h15 : c = 'p'
  · subst h15
    simp only [l_pack_step] at hs
    repeat' split at hs
    all_goals try cases hs
    all_goals try dsimp only
    all_goals try split_ifs at *
    all_goals omega
  by_cases h16 : c = 's'
  · subst h16
    simp only [l_pack_step] at hs
    repeat' split at hs
    all_goals try cases hs
    all_goals try dsimp only
    all_goals try split_ifs at *
    all_goals omega
  by_cases h17 : c = 'x'
  · subst h17
    simp only [l_pack_step] at hs
    repeat' split at hs
    all_goals try cases hs
    all_goals try dsimp only
    all_goals try split_ifs at *
    all_goals omega
  by_cases h18 : c = ' '
  · subst h18
    simp only [l_pack_step] at hs
    repeat' split at hs
    all_goals try cases hs
    all_goals try dsimp only
    all_goals try split_ifs at *
    all_goals omega
  simp only [l_pack_step] at hs
  cases hs

theorem pack_loop_nil (h : Host) (L : List LuaValue) (fuel : Nat) (argi : Nat) (little : Bool)
    (buf : List Nat) : l_pack_loop h L fuel [] argi little buf = .ok buf := by
  cases fuel <;> rfl

theorem pack_loop_run (h : Host) (L : List LuaValue) :
    ∀ (k m : Nat) (s0 s : PackState), l_pack_run h L k s0 = .ok s →
      l_pack_loop h L (k + m) s0.f s0.argi s0.little s0.buf
        = l_pack_loop h L m s.f s.argi s.little s.buf := by
  intro k
  induction k with
  | zero =>
    intro m s0 s hr
    simp only [l_pack_run, Except.ok.injEq] at hr
    rw [Nat.zero_add, hr]
  | succ k ih =>
    intro m s0 s hr
    rw [show k + 1 + m = (k + m) + 1 by omega]
    rw [l_pack_run] at hr
    cases hf : s0.f with
    | nil =>
      rw [hf] at hr
      simp only [Except.ok.injEq] at hr
      subst hr
      rw [hf, pack_loop_nil, pack_loop_nil]
    | cons c f =>
      rw [hf] at hr
      simp only at hr
      rw [pack_loop_step]
      cases hs : l_pack_step h L c f s0.argi s0.little s0.buf with
      | error e => rw [hs] at hr; cases hr
      | ok s1 =>
        rw [hs] at hr
        exact ih m s1 s hr

theorem pack_run_length (h : Host) (L : List LuaValue) :
    ∀ (k : Nat) (s0 s : PackState), l_pack_run h L k s0 = .ok s → s.f ≠ [] →
      s.f.length + k ≤ s0.f.length := by
  intro k
  induction k with
  | zero =>
    intro s0 s hr _
    simp only [l_pack_run, Except.ok.injEq] at hr
    rw [hr]; omega
  | succ k ih =>
    intro s0 s hr hne
    rw [l_pack_run] at hr
    cases hf : s0.f with
    | nil =>
      rw [hf] at hr
      simp only [Except.ok.injEq] at hr
      subst hr
      exact absurd hf hne
    | cons c f =>
      rw [hf] at hr
      simp only at hr
      cases hs : l_pack_step h L c f s0.argi s0.little s0.buf with
      | error e => rw [hs] at hr; cases hr
      | ok s1 =>
        rw [hs] at hr
        have := ih s1 s hr hne
        obtain ⟨h3, _⟩ := pack_step_ok h L c f s0.argi s0.little s0.buf s1 hs
        simp only [List.length_cons]
        omega

theorem pack_loop_fuel (h : Host) (L : List LuaValue) :
    ∀ (fuel fuel1 : Nat) (f : List Char) (argi : Nat) (little : Bool) (buf : List Nat),
      f.length ≤ fuel → f.length ≤ fuel1 →
      l_pack_loop h L fuel f argi little buf = l_pack_loop h L fuel1 f argi little buf := by
  intro fuel
  induction fuel with
  | zero =>
    intro fuel1 f argi little buf h0 _
    have : f = [] := List.length_eq_zero.mp (by omega)
    subst this
    rw [pack_loop_nil, pack_loop_nil]
  | succ k ih =>
    intro fuel1 f argi little buf hk hk1
    cases f with
    | nil => rw [pack_loop_nil, pack_loop_nil]
    | cons c f =>
      obtain ⟨k1, rfl⟩ : ∃ k1, fuel1 = k1 + 1 := ⟨fuel1 - 1, by simp at hk1; omega⟩
      rw [pack_loop_step, pack_loop_step]
      cases hs : l_pack_step h L c f argi little buf with
      | error e => rfl
      | ok s1 =>
        obtain ⟨h3, _⟩ := pack_step_ok h L c f argi little buf s1 hs
        simp only [List.length_cons] at hk hk1
        exact ih k1 s1.f s1.argi s1.little s1.buf (by omega) (by omega)

theorem pack_run_more_args (h : Host) (v1 v2 : List LuaValue) :
    ∀ (k : Nat) (s0 s : PackState), l_pack_run h v1 k s0 = .ok s →
      l_pack_run h (v1 ++ v2) k s0 = .ok s := by
  intro k
  induction k with
  | zero => intro s0 s hr; exact hr
  | succ k ih =>
    intro s0 s hr
    rw [l_pack_run] at hr ⊢
    cases hf : s0.f with
    | nil => rw [hf] at hr; exact hr
    | cons c f =>
      rw [hf] at hr
      simp only at hr ⊢
      cases hs : l_pack_step h v1 c f s0.argi s0.little s0.buf with
      | error e => rw [hs] at hr; cases hr
      | ok s1 =>
        rw [hs] at hr
        rw [pack_step_more_args h v1 v2 c f s0.argi s0.little s0.buf s1 hs]
        exact ih s1 s hr

theorem pack_loop_append (h : Host) (L : List LuaValue) (g : List Char) (hg : startsClean g) :
    ∀ (k : Nat) (s0 s1 : PackState), l_pack_run h L k s0 = .ok s1 → s1.f = [] →
      ∀ fuel, (s0.f ++ g).length ≤ fuel →
      l_pack_loop h L fuel (s0.f ++ g) s0.argi s0.little s0.buf
        = l_pack_loop h L g.length g s1.argi s1.little s1.buf := by
  intro k
  induction k with
  | zero =>
    intro s0 s1 hr hnil fuel hfuel
    simp only [l_pack_run, Except.ok.injEq] at hr
    subst hr
    rw [hnil] at hfuel ⊢
    exact pack_loop_fuel h L fuel g.length _ _ _ _ (by simpa using hfuel) (le_refl _)
  | succ k ih =>
    intro s0 s1 hr hnil fuel hfuel
    rw [l_pack_run] at hr
    cases hf : s0.f with
    | nil =>
      rw [hf] at hr
      simp only [Except.ok.injEq] at hr
      subst hr
      rw [hf] at hfuel
      exact pack_loop_fuel h L fuel g.length _ _ _ _ (by simpa using hfuel) (le_refl _)
    | cons c f =>
      rw [hf] at hr hfuel
      simp only at hr
      obtain ⟨k1, rfl⟩ : ∃ k1, fuel = k1 + 1 := ⟨fuel - 1, by simp at hfuel; omega⟩
      rw [List.cons_append, pack_loop_step, pack_step_append h L c f g _ _ _ hg]
      cases hs : l_pack_step h L c f s0.argi s0.little s0.buf with
      | error e => rw [hs] at hr; cases hr
      | ok s2 =>
        rw [hs] at hr
        obtain ⟨h3, _⟩ := pack_step_ok h L c f s0.argi s0.little s0.buf s2 hs
        simp only [Except.map]
        have := ih s2 s1 hr hnil k1 (by simp at hfuel ⊢; omega)
        exact this

theorem pack_loop_shift (h : Host) (v1 v2 : List LuaValue) (b1 : List Nat) :
    ∀ (fuel : Nat) (f : List Char) (argi : Nat) (little : Bool) (buf : List Nat), 2 ≤ argi →
      l_pack_loop h (v1 ++ v2) fuel f (argi + v1.length) little (b1 ++ buf)
        = ((l_pack_loop h v2 fuel f argi little buf).map (fun b => b1 ++ b)).mapError
            (shiftArg v1.length) := by
  intro fuel
  induction fuel with
  | zero => intro f argi little buf _; rfl
  | succ k ih =>
    intro f argi little buf h2
    cases f with
    | nil => rfl
    | cons c f =>
      rw [pack_loop_step, pack_loop_step, pack_step_shift h v1 v2 c f argi little b1 buf h2]
      cases hs : l_pack_step h v2 c f argi little buf with
      | error e => rfl
      | ok s1 =>
        obtain ⟨_, h4⟩ := pack_step_ok h v2 c f argi little buf s1 hs
        simp only [Except.map, Except.mapError]
        exact ih s1.f s1.argi s1.little s1.buf (by omega)

/-! ## Malformed directives of `l_pack` -/

theorem pack_step_malformed (h : Host) (c : Char) (f : List Char) (hm : malformed h c f) :
    ∃ e, ∀ (L : List LuaValue) (argi : Nat) (little : Bool) (buf : List Nat),
      l_pack_step h L c f argi little buf = .error e := by
  rcases hm with hc | ⟨hlen, ⟨hc, hw⟩ | ⟨rfl, hw⟩ | ⟨rfl, hw⟩⟩
  · simp only [List.mem_cons, List.mem_singleton, List.not_mem_nil, or_false, not_or] at hc
    obtain ⟨h0, h1, h2, h3, h4, h5, h6, h7, h8, h9, h10, h11, h12, h13, h14, h15, h16, h17,
      h18⟩ := hc
    refine ⟨.invalidSpecifier c, fun L argi little buf => ?_⟩
    simp only [l_pack_step]
  · have h0 : ¬ sizeWritten (digitsAt f) 4 ≤ 0 := by omega
    have hrn := read_number_digitsAt f 4 hlen
    rcases hc with rfl | rfl
    · exact ⟨.sizeTooWide 'i' (sizeWritten (digitsAt f) 4), fun L argi little buf => by
        simp only [l_pack_step, hrn, if_neg h0, if_pos hw]⟩
    · exact ⟨.sizeTooWide 'I' (sizeWritten (digitsAt f) 4), fun L argi little buf => by
        simp only [l_pack_step, hrn, if_neg h0, if_pos hw]⟩
  · have hrn := read_number_digitsAt f 2 hlen
    exact ⟨.intTooWide 'p' (sizeWritten (digitsAt f) 2), fun L argi little buf => by
      simp only [l_pack_step, hrn, if_pos hw]⟩
  · have hrn := read_number_digitsAt f 1 hlen
    exact ⟨.paddingTooLong 'x' (sizeWritten (digitsAt f) 1), fun L argi little buf => by
      simp only [l_pack_step, hrn, if_pos hw]⟩

/-! ## The claims -/

/-- C2, the code at a failing input: on a little-endian host the round trip of
4294967296 (2^32) through `<I8` and through `>I8` returns `(9, 0)`.  Pack writes the
eight bytes of the value; unpack reads the result through the 32-bit field `v.u32`. -/
theorem unsigned_round_trip_I8_reads_32_bits :
    roundTrip hostLE ['<', 'I', '8'] [.num 4294967296] = .ok (9, [.num 0])
    ∧ roundTrip hostLE ['>', 'I', '8'] [.num 4294967296] = .ok (9, [.num 0]) :=
  ⟨rfl, rfl⟩

/-- C3, the code at failing inputs: on a little-endian host the round trip of -1
through `<i2` and `>i2` returns `(3, 65535)` (the two bytes are read into a zeroed
scratch and the 32-bit field `v.i32` is pushed, without sign extension from the
width), and the round trip of 2147483648 (2^31) through `<i8` returns
`(9, -2147483648)`. -/
theorem signed_round_trip_not_sign_extended :
    roundTrip hostLE ['<', 'i', '2'] [.num (-1)] = .ok (3, [.num 65535])
    ∧ roundTrip hostLE ['>', 'i', '2'] [.num (-1)] = .ok (3, [.num 65535])
    ∧ roundTrip hostLE ['<', 'i', '8'] [.num 2147483648] = .ok (9, [.num (-2147483648)]) :=
  ⟨rfl, rfl, rfl⟩

/-- C4, the code at a failing input: pack emits 2 bytes for `l` (and for `L`), while
unpack of `l` fails on a 2-byte buffer and, on a 10-byte buffer, consumes 8 bytes and
returns the next position 9 instead of 3. -/
theorem unpack_l_reads_eight_bytes :
    l_pack hostLE ['l'] [.num 1] = .ok [1, 0]
    ∧ l_unpack hostLE ['l'] [1, 0] 1 = .error (.hitEndOfData 'l' 1)
    ∧ l_unpack hostLE ['l'] [1, 0, 0, 0, 0, 0, 0, 0, 0, 0] 1 = .ok (9, [.num 1])
    ∧ l_pack hostLE ['L'] [.num 1] = .ok [1, 0]
    ∧ l_unpack hostLE ['L'] [1, 0, 0, 0, 0, 0, 0, 0, 0, 0] 1 = .ok (9, [.num 1]) :=
  ⟨rfl, rfl, rfl, rfl, rfl⟩

set_option maxRecDepth 100000 in
/-- C5, the code at a failing input: for `p1` the shift count `4 - size*8` of the
length mask wraps to a count of 32 or more, and a 300-byte string is packed as the
length byte 12 and 12 payload bytes (the mask is `0xF`), in each endian mode, instead
of the length byte 44 and 44 payload bytes. -/
theorem pack_p1_length_mask :
    32 ≤ prefixShift 1
    ∧ l_pack hostLE ['p', '1'] [.str (List.replicate 300 65)]
        = .ok (12 :: List.replicate 12 65)
    ∧ l_pack hostLE ['<', 'p', '1'] [.str (List.replicate 300 65)]
        = .ok (12 :: List.replicate 12 65)
    ∧ l_pack hostLE ['>', 'p', '1'] [.str (List.replicate 300 65)]
        = .ok (12 :: List.replicate 12 65) :=
  ⟨by decide, rfl, rfl, rfl⟩

/-- C6, the code at a failing input: `s0` consumes two arguments.  Packing `s0 c` with
the values "a", "b" fails on the missing argument 4, where `c` with "b" gives the byte
98; the same happens for `s` without a size on the empty string; with a third value
"c" the result is the byte 99. -/
theorem pack_s0_consumes_two_arguments :
    l_pack hostLE ['s', '0', ' ', 'c'] [.str [97], .str [98]] = .error (.badArgument 4)
    ∧ l_pack hostLE ['c'] [.str [98]] = .ok [98]
    ∧ l_pack hostLE ['s', ' ', 'c'] [.str [], .str [98]] = .error (.badArgument 4)
    ∧ l_pack hostLE ['s', '0', ' ', 'c'] [.str [97], .str [98], .str [99]] = .ok [99] :=
  ⟨rfl, rfl, rfl, rfl⟩

/-- C7, the code at a failing input: unpack of `x1,0` on a 2-byte buffer fails with
"invalid format specifier ','", where unpack of `x1` returns the next position 2 and
pack accepts `x1,0`. -/
theorem unpack_x_rejects_fill_value :
    l_unpack hostLE ['x', '1', ',', '0'] [7, 8] 1 = .error (.invalidSpecifier ',')
    ∧ l_unpack hostLE ['x', '1'] [7, 8] 1 = .ok (2, [])
    ∧ l_pack hostLE ['x', '1', ',', '0'] [] = .ok [0] :=
  ⟨rfl, rfl, rfl⟩

/-- C8, counterexample: on the little-endian host with the conversions of x86-64,
`2^63 + 2048` and 2048 are congruent modulo `2^16`, the two low-order bytes of both are
0 and 8, and `<I2` packs 2048 as 0, 8 but `2^63 + 2048` as 0, 0: `I` stores its argument
through the signed field `v.i64`, whose range ends below `2^63`. -/
theorem pack_narrowing_above_int64 :
    9223372036854777856 % 2 ^ (8 * 2) = 2048 % 2 ^ (8 * 2)
    ∧ ((List.range 2).map fun k => 9223372036854777856 / 256 ^ k % 256) = [0, 8]
    ∧ l_pack hostLE ['<', 'I', '2'] [.num 2048] = .ok [0, 8]
    ∧ l_pack hostLE ['<', 'I', '2'] [.num 9223372036854777856] = .ok [0, 0]
    ∧ l_pack hostLE ['<', 'I', '2'] [.num 9223372036854777856]
        ≠ l_pack hostLE ['<', 'I', '2'] [.num 2048] := by
  have e1 : l_pack hostLE ['<', 'I', '2'] [.num 2048] = .ok [0, 8] := rfl
  have e2 : l_pack hostLE ['<', 'I', '2'] [.num 9223372036854777856] = .ok [0, 0] := rfl
  refine ⟨by decide, by decide, e1, e2, ?_⟩
  rw [e1, e2]
  simp

/-- C8, amended: for every host, every width `N` from 1 to 8 and all naturals `v`, `w`
below `2^63` that are congruent modulo `2^(8N)`, packing `v` with `<IN` gives the `N`
low-order bytes of `v`, least significant first, packing it with `>IN` gives the same
bytes most significant first, and packing `w` gives the same output as packing `v` in
both modes. -/
theorem pack_narrowing_low_order_bytes (h : Host) (N v w : Nat) (hN1 : 1 ≤ N) (hN8 : N ≤ 8)
    (hv : v < 2 ^ 63) (hw : w < 2 ^ 63) (hvw : v % 2 ^ (8 * N) = w % 2 ^ (8 * N)) :
    l_pack h ['<', 'I', Char.ofNat (48 + N)] [.num v]
        = .ok ((List.range N).map fun k => v / 256 ^ k % 256)
    ∧ l_pack h ['>', 'I', Char.ofNat (48 + N)] [.num v]
        = .ok ((List.range N).map fun k => v / 256 ^ k % 256).reverse
    ∧ l_pack h ['<', 'I', Char.ofNat (48 + N)] [.num v]
        = l_pack h ['<', 'I', Char.ofNat (48 + N)] [.num w]
    ∧ l_pack h ['>', 'I', Char.ofNat (48 + N)] [.num v]
        = l_pack h ['>', 'I', Char.ofNat (48 + N)] [.num w] := by
  have hc : leBytes N v = leBytes N w := by
    apply leBytes_congr
    have e : (256 : Nat) ^ N = 2 ^ (8 * N) := by
      have : (256 : Nat) = 2 ^ 8 := by norm_num
      rw [this, ← pow_mul]
    rw [e]; exact hvw
  have hr : ∀ u : Nat, u < 2 ^ 63 → toField h true 8 (u : Int) = toBits 8 (u : Int) := by
    intro u hu
    apply toField_eq
    simp only [inRange, if_true, Bool.and_eq_true, decide_eq_true_eq]
    norm_num at hu ⊢
    omega
  have h1 := pack_I_digit h '<' N v hN1 hN8 (Or.inl rfl)
  have h2 := pack_I_digit h '>' N v hN1 hN8 (Or.inr rfl)
  have h3 := pack_I_digit h '<' N w hN1 hN8 (Or.inl rfl)
  have h4 := pack_I_digit h '>' N w hN1 hN8 (Or.inr rfl)
  simp only [hr v hv, hr w hw, leBytes_toBits _ _ hN8, if_true] at h1 h2 h3 h4
  simp only [show ¬ ('>' = '<') by decide, if_false] at h2 h4
  refine ⟨?_, ?_, ?_, ?_⟩
  · rw [h1, leBytes_eq_map]
  · rw [h2, leBytes_eq_map]
  · rw [h1, h3, hc]
  · rw [h2, h4, hc]

/-- C8, witness: 0x12345678 and 0x5678 packed with `I2`, in both endian modes. -/
theorem pack_narrowing_example :
    (1 ≤ 2 ∧ 2 ≤ 8 ∧ 305419896 < 2 ^ 63 ∧ 22136 < 2 ^ 63
      ∧ 305419896 % 2 ^ (8 * 2) = 22136 % 2 ^ (8 * 2))
    ∧ l_pack hostLE ['<', 'I', Char.ofNat (48 + 2)] [.num (305419896 : Nat)]
        = .ok ((List.range 2).map fun k => 305419896 / 256 ^ k % 256)
    ∧ l_pack hostLE ['>', 'I', Char.ofNat (48 + 2)] [.num (305419896 : Nat)]
        = .ok ((List.range 2).map fun k => 305419896 / 256 ^ k % 256).reverse
    ∧ l_pack hostLE ['<', 'I', Char.ofNat (48 + 2)] [.num (305419896 : Nat)]
        = l_pack hostLE ['<', 'I', Char.ofNat (48 + 2)] [.num (22136 : Nat)]
    ∧ l_pack hostLE ['>', 'I', Char.ofNat (48 + 2)] [.num (305419896 : Nat)]
        = l_pack hostLE ['>', 'I', Char.ofNat (48 + 2)] [.num (22136 : Nat)] :=
  ⟨⟨by decide, by decide, by decide, by decide, by decide⟩,
    pack_narrowing_low_order_bytes hostLE 2 305419896 22136 (by decide) (by decide)
      (by decide) (by decide) (by decide)⟩

/-- C9, the code at a failing input: on a little-endian host `<I8` packs 1 as the bytes
1, 0, 0, 0, 0, 0, 0, 0 and `>I8` unpacks these bytes as 0, not as the byte-reversed
value 2^56; `<L` packs 1 as 2 bytes, which `>L` fails to unpack. -/
theorem endian_symmetry_I8_fails :
    l_pack hostLE ['<', 'I', '8'] [.num 1] = .ok [1, 0, 0, 0, 0, 0, 0, 0]
    ∧ l_unpack hostLE ['>', 'I', '8'] [1, 0, 0, 0, 0, 0, 0, 0] 1 = .ok (9, [.num 0])
    ∧ l_pack hostLE ['<', 'L'] [.num 1] = .ok [1, 0]
    ∧ l_unpack hostLE ['>', 'L'] [1, 0] 1 = .error (.hitEndOfData 'L' 1) :=
  ⟨rfl, rfl, rfl, rfl⟩

/-- C10: for every host and every string `s` without a zero byte, `pack("z", s)` is the
bytes of `s` followed by one zero byte, and unpacking these bytes with `z` from
position 1 returns `(len(s) + 2, s)`. -/
theorem zero_terminated_round_trip (h : Host) (s : List Nat) (hs : ∀ b ∈ s, b ≠ 0) :
    l_pack h ['z'] [.str s] = .ok (s ++ [0])
    ∧ l_unpack h ['z'] (s ++ [0]) 1 = .ok ((s.length : Int) + 2, [.str s]) := by
  constructor
  · simp [l_pack, l_pack_loop, luaL_checkstring, lua_arg]
  · have hlen : strlen (s ++ [0]) 0 = s.length := by
      simp [strlen, takeWhile_nonzero s [] hs]
    have hmem : memAt (s ++ [0]) 0 s.length = s := by
      have := memAt_mid [] s [0] s.length rfl
      simpa using this
    have hp : ptrAdd h (s ++ [0]) 0 (s.length + 1) = (s.length : Int) + 1 := by
      rw [ptrAdd_eq h _ _ _ (by simp)]
      push_cast
      omega
    simp [l_unpack, l_unpack_loop, hlen, hmem, CHECK_DATA, hp]
    omega

/-- C10, witness: `pack("z", "hi")` is the 3 bytes h, i, 0 and unpacking them gives
`(4, "hi")`. -/
theorem zero_terminated_round_trip_hi :
    (∀ b ∈ [104, 105], b ≠ 0)
    ∧ l_pack hostLE ['z'] [.str [104, 105]] = .ok ([104, 105] ++ [0])
    ∧ l_unpack hostLE ['z'] ([104, 105] ++ [0]) 1
        = .ok ((([104, 105] : List Nat).length : Int) + 2, [.str [104, 105]]) :=
  ⟨by decide, zero_terminated_round_trip hostLE [104, 105] (by decide)⟩

/-- C11, counterexample: on a buffer of 3 bytes, `unpack` with `s4294967297` and with
`s` followed by the 33 digits of `10^32 + 1` returns one byte and the next position 2:
a short read where the directive needs more bytes than remain.  The first size lies
beyond the 9 digits that the `int` place value of `read_number` holds; the second is
no `size_t`, and the place value `10^32` of its leading digit is 0 in 32 bits. -/
theorem unpack_short_read :
    l_unpack hostLE "s4294967297".toList [97, 98, 99] 1 = .ok (2, [.str [97]])
    ∧ l_unpack hostLE "s100000000000000000000000000000001".toList [97, 98, 99] 1
        = .ok (2, [.str [97]])
    ∧ (3 : Int) < 0 + (decimal "4294967297".toList : Int)
    ∧ (3 : Int) < 0 + (decimal "100000000000000000000000000000001".toList : Int) :=
  ⟨rfl, rfl, by decide, by decide⟩

/-- C11, amended: in `unpack` of a byte string that lies at least `2^32` bytes below the
end of the address space, a directive that needs more bytes than remain makes the call
fail when its size is written with at most 9 digits.  Whenever the loop is at a
directive `c` with the data pointer before the end of the buffer and `needsMore` holds
(the size of `c`, `b`, `B`, `h`, `H`, `f`, `d`, the size `N` written for `i`/`I`, `s`,
`x`, the prefix or the decoded payload of `p`, no zero byte left for `z`), the loop
returns an error and no value; the same holds for the whole call whenever its scan
reaches such a state after `k` directives; and `unpack("I4", data)` fails for every
buffer of 3 bytes. -/
theorem unpack_out_of_data (h : Host) (data : List Nat) (hroom : 4294967296 ≤ h.room)
    (hbytes : ∀ b ∈ data, b < 256) :
    (∀ (fuel : Nat) (c : Char) (f : List Char) (d : Int) (little : Bool)
        (vals : List LuaValue),
        d < (data.length : Int) → needsMore h data c f d little →
        ∃ e, l_unpack_loop h data (fuel + 1) (c :: f) d little vals = .error e)
    ∧ (∀ (fmt : List Char) (start : Int) (k : Nat) (s : UnpackState) (c : Char)
        (f : List Char),
        l_unpack_run h data k ⟨fmt, start - 1, h.little, []⟩ = .ok s → s.f = c :: f →
        s.d < (data.length : Int) → needsMore h data c f s.d s.little →
        ∃ e, l_unpack h fmt data start = .error e)
    ∧ (data.length = 3 → ∃ e, l_unpack h ['I', '4'] data 1 = .error e) := by
  have key : ∀ (fuel : Nat) (c : Char) (f : List Char) (d : Int) (little : Bool)
      (vals : List LuaValue), d < (data.length : Int) → needsMore h data c f d little →
      ∃ e, l_unpack_loop h data (fuel + 1) (c :: f) d little vals = .error e := by
    intro fuel c f d little vals hlt hn
    obtain ⟨e, he⟩ := unpack_step_out_of_data h data c f d little vals hroom hbytes hlt hn
    refine ⟨e, ?_⟩
    rw [unpack_loop_step h data fuel c f d little vals
      ⟨hlt, needsMore_char h data c f d little hn⟩, he]
  refine ⟨key, ?_, ?_⟩
  · intro fmt start k s c f hr hf hlt hn
    have hc0 := needsMore_char h data c f s.d s.little hn
    have hlen := unpack_run_length h data k _ s hr ⟨hlt, by rw [hf]; exact hc0⟩
    simp only [hf, List.length_cons] at hlen
    obtain ⟨m, hm⟩ : ∃ m, fmt.length = k + (m + 1) := ⟨fmt.length - k - 1, by omega⟩
    have := unpack_loop_run h data k (m + 1) _ s hr
    simp only at this
    rw [l_unpack, hm, this, hf]
    exact key m c f s.d s.little s.vals hlt hn
  · intro h3
    have hn : needsMore h data 'I' ['4'] 0 h.little := by
      refine Or.inr (Or.inr (Or.inr (Or.inr (Or.inl ⟨by decide, Or.inl ⟨Or.inr rfl, ?_⟩⟩))))
      have : sizeWritten (digitsAt ['4']) 4 = 4 := by decide
      rw [this, h3]
      decide
    have := key 1 'I' ['4'] 0 h.little [] (by rw [h3]; decide) hn
    simpa [l_unpack] using this

/-- C11, witness: `I4` on the 3 bytes 1, 2, 3, and `x5` after `b` on the same bytes. -/
theorem unpack_out_of_data_example :
    (4294967296 ≤ hostLE.room ∧ ∀ b ∈ [1, 2, 3], b < 256)
    ∧ ((0 : Int) < (([1, 2, 3] : List Nat).length : Int)
      ∧ needsMore hostLE [1, 2, 3] 'I' ['4'] 0 true
      ∧ ∃ e, l_unpack_loop hostLE [1, 2, 3] (0 + 1) ('I' :: ['4']) 0 true [] = .error e)
    ∧ (l_unpack_run hostLE [1, 2, 3] 1 ⟨['b', 'x', '5'], 1 - 1, hostLE.little, []⟩
          = .ok ⟨['x', '5'], 1, true, [.num 1]⟩
      ∧ needsMore hostLE [1, 2, 3] 'x' ['5'] 1 true
      ∧ ∃ e, l_unpack hostLE ['b', 'x', '5'] [1, 2, 3] 1 = .error e)
    ∧ (([1, 2, 3] : List Nat).length = 3
      ∧ ∃ e, l_unpack hostLE ['I', '4'] [1, 2, 3] 1 = .error e) :=
  ⟨⟨by decide, by decide⟩,
    ⟨by decide, by decide,
      (unpack_out_of_data hostLE [1, 2, 3] (by decide) (by decide)).1 0 'I' ['4'] 0 true []
        (by decide) (by decide)⟩,
    ⟨rfl, by decide,
      (unpack_out_of_data hostLE [1, 2, 3] (by decide) (by decide)).2.1 ['b', 'x', '5'] 1 1
        ⟨['x', '5'], 1, true, [.num 1]⟩ 'x' ['5'] rfl rfl (by decide) (by decide)⟩,
    rfl, (unpack_out_of_data hostLE [1, 2, 3] (by decide) (by decide)).2.2 rfl⟩

/-- C12: in `unpack`, once the data pointer has reached the end of the buffer the rest of
the format is ignored, whatever it holds: for every format and buffer,
`unpack(fmt, data, len(data) + 1)` returns `len(data) + 1` and no value, and from every
state with the pointer at or past the end the loop returns the position after the
pointer and the values pushed so far, without error. -/
theorem unpack_halts_at_buffer_end (h : Host) (data : List Nat) :
    (∀ fmt : List Char,
        l_unpack h fmt data ((data.length : Int) + 1) = .ok ((data.length : Int) + 1, []))
    ∧ (∀ (fuel : Nat) (f : List Char) (d : Int) (little : Bool) (vals : List LuaValue),
        (data.length : Int) ≤ d →
        l_unpack_loop h data fuel f d little vals = .ok (d + 1, vals)) := by
  refine ⟨?_, fun fuel f d little vals hd => unpack_loop_at_end h data fuel f d little vals hd⟩
  intro fmt
  rw [l_unpack, unpack_loop_at_end h data _ _ _ _ _ (by omega)]
  simp

/-- C12, witness: the format `I9?z`, malformed throughout, on a 2-byte buffer from
position 3, and the loop at `?z` with the pointer at the end. -/
theorem unpack_halts_at_buffer_end_example :
    l_unpack hostLE ['I', '9', '?', 'z'] [1, 2] ((([1, 2] : List Nat).length : Int) + 1)
        = .ok ((([1, 2] : List Nat).length : Int) + 1, [])
    ∧ ((([1, 2] : List Nat).length : Int) ≤ 2
      ∧ l_unpack_loop hostLE [1, 2] 3 ['?', 'z'] 2 true [.num 7] = .ok (2 + 1, [.num 7])) :=
  ⟨(unpack_halts_at_buffer_end hostLE [1, 2]).1 _, by decide,
    (unpack_halts_at_buffer_end hostLE [1, 2]).2 3 ['?', 'z'] 2 true [.num 7] (by decide)⟩

/-- C13, counterexample: `pack` accepts `I4294967300` (and `I` followed by the 33 digits
of `10^32 + 4`, which is no `size_t`) as a width of 4, `p4294967298` as a prefix of 2
bytes and `x4294967300` as 4 bytes of padding, although the size written is above 8,
above 4 and above `LUAL_BUFFERSIZE`. -/
theorem pack_accepts_wide_sizes :
    l_pack hostLE "I4294967300".toList [.num 1] = .ok [1, 0, 0, 0]
    ∧ l_pack hostLE "I100000000000000000000000000000004".toList [.num 1] = .ok [1, 0, 0, 0]
    ∧ l_pack hostLE "p4294967298".toList [.str [97, 98, 99]] = .ok [3, 0, 97, 98, 99]
    ∧ l_pack hostLE "x4294967300".toList [] = .ok [0, 0, 0, 0]
    ∧ 8 < decimal "4294967300".toList
    ∧ 8 < decimal "100000000000000000000000000000004".toList
    ∧ 4 < decimal "4294967298".toList
    ∧ hostLE.LUAL_BUFFERSIZE < decimal "4294967300".toList :=
  ⟨rfl, rfl, rfl, rfl, by decide, by decide, by decide, by decide⟩

/-- C13, amended: `pack` rejects a malformed directive before the directive reads an
argument, when the size is written with at most 9 digits.  For an unknown character,
`i`/`I` wider than 8, `p` wider than 4 or `x` longer than `LUAL_BUFFERSIZE` there is one
error that the loop returns at this directive for every argument list, argument index,
endian mode and buffer; and every call of `pack` whose scan reaches the directive after
`k` directives fails. -/
theorem pack_rejects_malformed (h : Host) (c : Char) (f : List Char)
    (hm : malformed h c f) :
    (∃ e, ∀ (L : List LuaValue) (fuel argi : Nat) (little : Bool) (buf : List Nat),
        l_pack_loop h L (fuel + 1) (c :: f) argi little buf = .error e)
    ∧ (∀ (fmt : List Char) (L : List LuaValue) (k : Nat) (s : PackState),
        l_pack_run h L k ⟨fmt, 2, h.little, []⟩ = .ok s → s.f = c :: f →
        ∃ e, l_pack h fmt L = .error e) := by
  obtain ⟨e, he⟩ := pack_step_malformed h c f hm
  have key : ∀ (L : List LuaValue) (fuel argi : Nat) (little : Bool) (buf : List Nat),
      l_pack_loop h L (fuel + 1) (c :: f) argi little buf = .error e := by
    intro L fuel argi little buf
    rw [pack_loop_step, he]
  refine ⟨⟨e, key⟩, ?_⟩
  intro fmt L k s hr hf
  have hlen := pack_run_length h L k _ s hr (by rw [hf]; simp)
  simp only [hf, List.length_cons] at hlen
  obtain ⟨m, hm1⟩ : ∃ m, fmt.length = k + (m + 1) := ⟨fmt.length - k - 1, by omega⟩
  have := pack_loop_run h L k (m + 1) _ s hr
  simp only at this
  refine ⟨e, ?_⟩
  rw [l_pack, hm1, this, hf]
  exact key L m s.argi s.little s.buf

/-- C13, witness: `I9`, alone and after `c` in `pack("cI9", "A")`. -/
theorem pack_rejects_malformed_example :
    malformed hostLE 'I' ['9']
    ∧ (∃ e, ∀ (L : List LuaValue) (fuel argi : Nat) (little : Bool) (buf : List Nat),
        l_pack_loop hostLE L (fuel + 1) ('I' :: ['9']) argi little buf = .error e)
    ∧ l_pack_run hostLE [.str [65]] 1 ⟨['c', 'I', '9'], 2, hostLE.little, []⟩
        = .ok ⟨['I', '9'], 3, true, [65]⟩
    ∧ ∃ e, l_pack hostLE ['c', 'I', '9'] [.str [65]] = .error e :=
  ⟨by decide, (pack_rejects_malformed hostLE 'I' ['9'] (by decide)).1, rfl,
    (pack_rejects_malformed hostLE 'I' ['9'] (by decide)).2 ['c', 'I', '9'] [.str [65]] 1
      ⟨['I', '9'], 3, true, [65]⟩ rfl rfl⟩

/-- C14, counterexample: `pack("s4294967300", "abcdef")` has 4 bytes and `pack` with
`s` followed by the 33 digits of `10^32 + 2` (no `size_t`) has 2 bytes, not the number
of bytes that is written; `s4294967296` emits nothing and takes two arguments. -/
theorem pack_fixed_length_wide_sizes :
    l_pack hostLE "s4294967300".toList [.str [97, 98, 99, 100, 101, 102]]
        = .ok [97, 98, 99, 100]
    ∧ l_pack hostLE "s100000000000000000000000000000002".toList
          [.str [97, 98, 99, 100, 101, 102]] = .ok [97, 98]
    ∧ l_pack hostLE "s4294967296c".toList [.str [97, 98, 99], .str [65], .str [66]]
        = .ok [66]
    ∧ decimal "4294967300".toList = 4294967300
    ∧ decimal "100000000000000000000000000000002".toList
        = 100000000000000000000000000000002 :=
  ⟨rfl, rfl, rfl, by decide, by decide⟩

/-- C14, amended: for every host, every `N >= 1` written with at most 9 digits and every
string `s`, `pack("s" ++ N, s)` is the first `min(N, len(s))` bytes of `s` followed by
`N - min(N, len(s))` zero bytes, `N` bytes in all; and for every non-empty `s`,
`pack("s", s)` is `s`. -/
theorem pack_fixed_length_string (h : Host) (ds : List Char) (s : List Nat) (hne : ds ≠ [])
    (hds : ∀ x ∈ ds, isdigit x = true) (h9 : ds.length ≤ 9) (hN : 1 ≤ decimal ds) :
    l_pack h ('s' :: ds) [.str s]
        = .ok (s.take (min (decimal ds) s.length)
            ++ List.replicate (decimal ds - min (decimal ds) s.length) 0)
    ∧ (s.take (min (decimal ds) s.length)
          ++ List.replicate (decimal ds - min (decimal ds) s.length) 0).length = decimal ds
    ∧ (s ≠ [] → l_pack h ['s'] [.str s] = .ok s) := by
  have hrn : (read_number ds 0).1 = decimal ds := by
    rw [read_number_written ds 0 hds h9]
    simp [sizeWritten, hne]
  refine ⟨?_, ?_, pack_s_whole h s⟩
  · have := pack_s_sized h ds s hne hds (by omega)
    rw [hrn] at this
    exact this
  · simp only [List.length_append, List.length_take, List.length_replicate]
    omega

/-- C14, witness: `pack("s5", "abc")` is "abc" and two zero bytes, `pack("s2", "abc")`
is "ab". -/
theorem pack_fixed_length_string_example :
    ((['5'] : List Char) ≠ [] ∧ (∀ x ∈ ['5'], isdigit x = true)
      ∧ (['5'] : List Char).length ≤ 9 ∧ 1 ≤ decimal ['5'])
    ∧ l_pack hostLE ['s', '5'] [.str [97, 98, 99]] = .ok [97, 98, 99, 0, 0]
    ∧ l_pack hostLE ['s', '2'] [.str [97, 98, 99]] = .ok [97, 98]
    ∧ decimal ['5'] = 5 :=
  ⟨⟨by decide, by decide, by decide, by decide⟩,
    (pack_fixed_length_string hostLE ['5'] [97, 98, 99] (by decide) (by decide) (by decide)
      (by decide)).1,
    rfl, rfl⟩

/-- C15: for every host, every `N <= LUAL_BUFFERSIZE` and every fill value `V <= 255`,
both written with at most 9 digits (`N` possibly left out, which gives 1), the directive
`x` followed by `N`, a comma and `V` reads no argument: the loop goes on behind it with
the same argument index, `N` bytes equal to `V` appended to the buffer; `x` followed by
`N` alone appends `N` zero bytes.  So `pack("x" ++ N ++ "," ++ V)` is `N` bytes equal to
`V` and `pack("x" ++ N)` is `N` zero bytes, whatever the arguments; `pack("x")` is one
zero byte and `pack("x4,65")` is 65, 65, 65, 65. -/
theorem pack_padding_content (h : Host) (ds vs : List Char)
    (hds : ∀ x ∈ ds, isdigit x = true) (hd9 : ds.length ≤ 9)
    (hvs : ∀ x ∈ vs, isdigit x = true) (hv9 : vs.length ≤ 9)
    (hN : sizeWritten ds 1 ≤ h.LUAL_BUFFERSIZE) (hV : decimal vs ≤ 255) :
    (∀ (L : List LuaValue) (fuel argi : Nat) (little : Bool) (rest : List Char)
        (out : List Nat), isdigit (peek rest) = false →
        l_pack_loop h L (fuel + 1) ('x' :: (ds ++ ',' :: (vs ++ rest))) argi little out
          = l_pack_loop h L fuel rest argi little
              (out ++ List.replicate (sizeWritten ds 1) (decimal vs)))
    ∧ (∀ (L : List LuaValue) (fuel argi : Nat) (little : Bool) (rest : List Char)
        (out : List Nat), startsClean rest →
        l_pack_loop h L (fuel + 1) ('x' :: (ds ++ rest)) argi little out
          = l_pack_loop h L fuel rest argi little
              (out ++ List.replicate (sizeWritten ds 1) 0))
    ∧ (∀ L : List LuaValue, l_pack h ('x' :: (ds ++ ',' :: vs)) L
        = .ok (List.replicate (sizeWritten ds 1) (decimal vs)))
    ∧ (∀ L : List LuaValue, l_pack h ('x' :: ds) L
        = .ok (List.replicate (sizeWritten ds 1) 0))
    ∧ (∀ L : List LuaValue, 1 ≤ h.LUAL_BUFFERSIZE → l_pack h ['x'] L = .ok [0])
    ∧ (∀ L : List LuaValue, 4 ≤ h.LUAL_BUFFERSIZE →
        l_pack h ['x', '4', ',', '6', '5'] L = .ok [65, 65, 65, 65]) := by
  have hrn : (read_number ds 1).1 = sizeWritten ds 1 := read_number_written ds 1 hds hd9
  have hrv : (read_number vs 0).1 % 256 = decimal vs := by
    rw [read_number_written vs 0 hvs hv9]
    have : sizeWritten vs 0 = decimal vs := by
      unfold sizeWritten
      split
      · rename_i e
        rw [e]
        rfl
      · rfl
    rw [this]
    omega
  refine ⟨?_, ?_, ?_, ?_, ?_, ?_⟩
  · intro L fuel argi little rest out hrest
    rw [pack_loop_step, pack_step_x_fill h L ds vs rest argi little out hds hvs hrest
      (by omega), hrn, hrv]
  · intro L fuel argi little rest out hrest
    rw [pack_loop_step, pack_step_x_plain h L ds rest argi little out hds hrest (by omega),
      hrn]
  · intro L
    rw [pack_x_fill h ds vs L hds hvs (by omega), hrn, hrv]
  · intro L
    rw [pack_x_plain h ds L hds (by omega), hrn]
  · intro L h1
    exact pack_x_plain h [] L (by simp) h1
  · intro L h4
    exact pack_x_fill h ['4'] ['6', '5'] L (by decide) (by decide) h4

/-- C15, witness: `x3,7` followed by `c` in `pack("x3,7c", "A")` appends 7, 7, 7 and
leaves the argument "A" to `c`; `pack("x3,7")` is 7, 7, 7 and `pack("x3")` is three zero
bytes, also when a value is passed. -/
theorem pack_padding_content_example :
    ((∀ x ∈ ['3'], isdigit x = true) ∧ (['3'] : List Char).length ≤ 9
      ∧ (∀ x ∈ ['7'], isdigit x = true) ∧ (['7'] : List Char).length ≤ 9
      ∧ sizeWritten ['3'] 1 ≤ hostLE.LUAL_BUFFERSIZE ∧ decimal ['7'] ≤ 255)
    ∧ l_pack_loop hostLE [.str [65]] (1 + 1) ('x' :: (['3'] ++ ',' :: (['7'] ++ ['c']))) 2 true []
        = l_pack_loop hostLE [.str [65]] 1 ['c'] 2 true
            ([] ++ List.replicate (sizeWritten ['3'] 1) (decimal ['7']))
    ∧ l_pack hostLE ['x', '3', ',', '7', 'c'] [.str [65]] = .ok [7, 7, 7, 65]
    ∧ l_pack hostLE ['x', '3', ',', '7'] [.num 1] = .ok [7, 7, 7]
    ∧ l_pack hostLE ['x', '3'] [.num 1] = .ok [0, 0, 0] :=
  ⟨⟨by decide, by decide, by decide, by decide, by decide, by decide⟩,
    (pack_padding_content hostLE ['3'] ['7'] (by decide) (by decide) (by decide) (by decide)
      (by decide) (by decide)).1 [.str [65]] 1 2 true ['c'] [] (by decide),
    rfl,
    (pack_padding_content hostLE ['3'] ['7'] (by decide) (by decide) (by decide) (by decide)
      (by decide) (by decide)).2.2.1 [.num 1],
    (pack_padding_content hostLE ['3'] ['7'] (by decide) (by decide) (by decide) (by decide)
      (by decide) (by decide)).2.2.2.1 [.num 1]⟩

/-- C16: for every host, every buffer and every `start` with `1 <= start <= len(data)`,
`unpack("s", data, start)` returns `len(data) + 1` and one value, the bytes of `data`
from position `start` to the end. -/
theorem unpack_s_reads_to_end (h : Host) (data : List Nat) (start : Int) (h1 : 1 ≤ start)
    (h2 : start ≤ data.length) :
    l_unpack h ['s'] data start
      = .ok ((data.length : Int) + 1, [.str (data.drop (start - 1).toNat)]) :=
  unpack_read_to_end h data start h1 h2

/-- C16, witness: `unpack("s", <5 bytes>, 3)` returns 6 and the last three bytes. -/
theorem unpack_s_reads_to_end_example :
    ((1 : Int) ≤ 3 ∧ (3 : Int) ≤ (([10, 20, 30, 40, 50] : List Nat).length : Int))
    ∧ l_unpack hostLE ['s'] [10, 20, 30, 40, 50] 3
        = .ok ((([10, 20, 30, 40, 50] : List Nat).length : Int) + 1,
            [.str (([10, 20, 30, 40, 50] : List Nat).drop ((3 : Int) - 1).toNat)]) :=
  ⟨⟨by decide, by decide⟩,
    unpack_s_reads_to_end hostLE [10, 20, 30, 40, 50] 3 (by decide) (by decide)⟩

/-- C17: the output of `pack` is the concatenation of the encodings.  If the loop of
`pack(f1, v1)` ends without error in a state `s1` that has consumed exactly the
arguments of `v1` and is in native endian mode, then `pack(f1, v1)` is the buffer of
`s1`, and `pack(f1 ++ " " ++ f2, v1 ++ v2)` is that buffer followed by the bytes of
`pack(f2, v2)`; it fails exactly when `pack(f2, v2)` fails, with the failure of
`pack(f2, v2)` (a bad argument being reported `len(v1)` positions later). -/
theorem pack_concatenation (h : Host) (f1 f2 : List Char) (v1 v2 : List LuaValue)
    (s1 : PackState)
    (hrun : l_pack_run h v1 f1.length ⟨f1, 2, h.little, []⟩ = .ok s1)
    (hargs : s1.argi = 2 + v1.length) (hmode : s1.little = h.little) :
    l_pack h f1 v1 = .ok s1.buf
    ∧ l_pack h (f1 ++ ' ' :: f2) (v1 ++ v2)
        = ((l_pack h f2 v2).map (fun b2 => s1.buf ++ b2)).mapError (shiftArg v1.length) := by
  have hnil : s1.f = [] := by
    by_contra hne
    have := pack_run_length h v1 f1.length _ s1 hrun hne
    simp only at this
    have : 0 < s1.f.length := List.length_pos.mpr hne
    omega
  constructor
  · have := pack_loop_run h v1 f1.length 0 _ s1 hrun
    simp only [Nat.add_zero] at this
    rw [l_pack, this]
    rfl
  · have hg : startsClean (' ' :: f2) := ⟨by rfl, by simp [peek]⟩
    have hrun2 := pack_run_more_args h v1 v2 f1.length _ s1 hrun
    have h1 := pack_loop_append h (v1 ++ v2) (' ' :: f2) hg f1.length _ s1 hrun2 hnil
      (f1 ++ ' ' :: f2).length (le_refl _)
    simp only at h1
    have h2 := pack_loop_shift h v1 v2 s1.buf f2.length f2 2 h.little [] (le_refl _)
    rw [List.append_nil] at h2
    rw [l_pack, h1, List.length_cons, pack_loop_step]
    simp only [l_pack_step, hargs, hmode]
    rw [h2]
    rfl

/-- C17, witness: `>Hz=` with 258, "hi" followed by `Hc` with 258, "A". -/
theorem pack_concatenation_example :
    (l_pack_run hostLE [.num 258, .str [104, 105]] (['>', 'H', 'z', '='] : List Char).length
        ⟨['>', 'H', 'z', '='], 2, hostLE.little, []⟩ = .ok ⟨[], 4, true, [1, 2, 104, 105, 0]⟩
      ∧ (4 : Nat) = 2 + ([.num 258, .str [104, 105]] : List LuaValue).length
      ∧ true = hostLE.little)
    ∧ l_pack hostLE ['>', 'H', 'z', '='] [.num 258, .str [104, 105]]
        = .ok [1, 2, 104, 105, 0]
    ∧ l_pack hostLE (['>', 'H', 'z', '='] ++ ' ' :: ['H', 'c'])
          ([.num 258, .str [104, 105]] ++ [.num 258, .str [65]])
        = ((l_pack hostLE ['H', 'c'] [.num 258, .str [65]]).map
            (fun b2 => [1, 2, 104, 105, 0] ++ b2)).mapError
            (shiftArg ([.num 258, .str [104, 105]] : List LuaValue).length) :=
  ⟨⟨rfl, rfl, rfl⟩,
    pack_concatenation hostLE ['>', 'H', 'z', '='] ['H', 'c'] [.num 258, .str [104, 105]]
      [.num 258, .str [65]] ⟨[], 4, true, [1, 2, 104, 105, 0]⟩ rfl rfl rfl⟩

/-- C18, counterexample: the run of 20 digits `18446744073709551616` denotes 2^64, which
no `size_t` holds; `read_number` returns 4294967296 for it. -/
theorem read_number_20_digits :
    read_number "18446744073709551616".toList 0 = (4294967296, [])
    ∧ decimal "18446744073709551616".toList = 18446744073709551616
    ∧ (read_number "18446744073709551616".toList 0).1
        ≠ decimal "18446744073709551616".toList := by
  refine ⟨rfl, rfl, ?_⟩
  decide

/-- C18, amended: for every input that starts with a maximal run of `k >= 1` ASCII
digits, `read_number` advances the format pointer by exactly `k` characters, and for
`k <= 9` it returns the unsigned integer the run denotes in base 10; for every input
that does not start with a digit it returns the default and leaves the pointer
unchanged. -/
theorem read_number_short_runs (ds rest : List Char) (dflt : Nat) (hne : ds ≠ [])
    (hds : ∀ x ∈ ds, isdigit x = true) (hrest : isdigit (peek rest) = false) :
    (read_number (ds ++ rest) dflt).2 = rest
    ∧ (ds.length ≤ 9 → (read_number (ds ++ rest) dflt).1 = decimal ds)
    ∧ read_number rest dflt = (dflt, rest) := by
  refine ⟨?_, ?_, read_number_no_digit rest dflt hrest⟩
  · rw [read_number_append ds rest dflt hds hrest]
  · intro h9
    rw [read_number_decimal ds rest dflt hne hds hrest h9]

/-- C18, witness: `read_number` on `128,7` with default 4 returns 128 and leaves `,7`. -/
theorem read_number_short_runs_example :
    ((['1', '2', '8'] : List Char) ≠ [] ∧ (∀ x ∈ ['1', '2', '8'], isdigit x = true)
      ∧ isdigit (peek [',', '7']) = false)
    ∧ (read_number (['1', '2', '8'] ++ [',', '7']) 4).2 = [',', '7']
    ∧ ((['1', '2', '8'] : List Char).length ≤ 9 →
        (read_number (['1', '2', '8'] ++ [',', '7']) 4).1 = decimal ['1', '2', '8'])
    ∧ read_number [',', '7'] 4 = (4, [',', '7'])
    ∧ decimal ['1', '2', '8'] = 128 :=
  ⟨⟨by decide, by decide, by decide⟩,
    (read_number_short_runs ['1', '2', '8'] [',', '7'] 4 (by decide) (by decide)
      (by decide)).1,
    (read_number_short_runs ['1', '2', '8'] [',', '7'] 4 (by decide) (by decide)
      (by decide)).2.1,
    (read_number_short_runs ['1', '2', '8'] [',', '7'] 4 (by decide) (by decide)
      (by decide)).2.2,
    rfl⟩

/-- C19, the code at a failing input: on the little-endian 64-bit host,
`unpack("x3000000000", "abc")` succeeds and returns the next position -1294967295, below
the start position 1.  `read_number` reads the ten digits as `2^64 - 1294967296`, the
pointer sum `d + size` of `CHECK_DATA` wraps around to 1294967296 bytes before the
buffer, which is not beyond `dend`, and `d += size` moves the data pointer there. -/
theorem unpack_cursor_leaves_buffer :
    read_number "3000000000".toList 1 = (18446744072414584320, [])
    ∧ ptrAdd hostLE [97, 98, 99] 0 18446744072414584320 = -1294967296
    ∧ CHECK_DATA hostLE [97, 98, 99] 0 18446744072414584320 'x' 1 = .ok ()
    ∧ l_unpack hostLE "x3000000000".toList [97, 98, 99] 1 = .ok (-1294967295, []) :=
  ⟨rfl, rfl, rfl, rfl⟩

/-- C20, the code at a failing input: the byte 7 unpacked with `<B` or `>B` is 7 on the
little-endian host and 0 on the host that differs only in `hostendian.little`, and the
bytes 1, 2, 3, 4 unpacked with `>I4` are 16909060 on the first and 0 on the second: the
value lies at the far end of the scratch union from the field read. -/
theorem unpack_depends_on_host_order :
    hostBE = { hostLE with little := false }
    ∧ l_unpack hostLE ['<', 'B'] [7] 1 = .ok (2, [.num 7])
    ∧ l_unpack hostBE ['<', 'B'] [7] 1 = .ok (2, [.num 0])
    ∧ l_unpack hostLE ['>', 'B'] [7] 1 = .ok (2, [.num 7])
    ∧ l_unpack hostBE ['>', 'B'] [7] 1 = .ok (2, [.num 0])
    ∧ l_unpack hostLE ['>', 'I', '4'] [1, 2, 3, 4] 1 = .ok (5, [.num 16909060])
    ∧ l_unpack hostBE ['>', 'I', '4'] [1, 2, 3, 4] 1 = .ok (5, [.num 0]) :=
  ⟨rfl, rfl, rfl, rfl, rfl, rfl, rfl⟩

end Packer
